import Mathlib

/-!
# cppp: partitioned file copy, directory replication and path materialisation

A shallow embedding of `src/include/copy.c`.

* C strings are lists of characters (`CStr`); `off_t`, `ssize_t` are `Int`;
  the `int` part counter of `copy_part` is kept in 32 bits by `wrapInt32`.
* The kernel is an explicit state (`World`): a directory table, an inode table,
  the table of open descriptors, `errno`, and a stream of `KernelAnswer`s that
  decides how many bytes each transfer system call moves (short transfers) or
  with which error it fails.  Permissions, quotas and signals are not modelled.
* Loops that the C code does not bound (`while (part_written < total_size)`,
  the loop over parts, the recursion of `copy_directory`) take a fuel argument;
  the status component `none` means "has not returned within the fuel".
* `BUFFER_SIZE` (buffer_size.h) and `PATH_MAX` (limits.h) are parameters.
-/

namespace Cppp

/-! ## Data model -/

/-- A C string: the characters before the terminating NUL. -/
abbrev CStr := List Char

/-- Status codes of error_codes.h that copy.c returns. -/
inductive ErrorCode
  | ERR_OK
  | ERR_UNKNOWN
  | ERR_COPY_FILE_OPEN
  | ERR_COPY_FILE_CREATE
  | ERR_COPY_FILE_FULL_FAIL
  | ERR_COPY_FILE_PART_COPY
  | ERR_COPY_FILE_NOT_ALLOWED
  | ERR_COPY_DIR_SRC_PATH_INFO
  | ERR_COPY_DIR_MKDIR_FAIL
  | ERR_COPY_DIR_OPEN
  deriving DecidableEq

/-- The errno values the code or the modelled kernel distinguish. -/
inductive Errno
  | E0
  | EINVAL
  | ENAMETOOLONG
  | ENOTDIR
  | EEXIST
  | ENOENT
  | EISDIR
  | EBADF
  | EIO
  | EXDEV
  | EOPNOTSUPP
  | ENOSYS
  deriving DecidableEq

/-- File type bits of `st_mode`. -/
inductive Kind
  | reg
  | dir
  | other
  deriving DecidableEq

/-- An inode: type, permission bits, device and content. -/
structure INode where
  kind : Kind
  perm : Nat
  dev : Nat
  data : List Nat

/-- What the kernel answers to the transfer system calls of one
`secure_copy_chunk` call: whether `copy_file_range` fails (and with which errno)
or how many bytes it is ready to move, and the same for `pread` and `pwrite`
(a negative answer is a failure). -/
structure KernelAnswer where
  cfr_errno : Option Errno
  cfr_max : Nat
  pread_ret : Int
  pwrite_ret : Int

/-- Calls recorded in the call log of the world. -/
inductive Call
  | mkdir (path : CStr)
  | stat (path : CStr)
  | copy_directory (src dst : CStr)
  | copy (src dst : CStr) (num_parts : Int)
  deriving DecidableEq

/-- The state of the machine seen by copy.c. -/
structure World where
  names : List (List CStr × Nat)
  inodes : Nat → INode
  nextIno : Nat
  fds : List (Nat × Nat)
  errno : Errno
  answers : Nat → KernelAnswer
  tick : Nat
  log : List Call

/-- Options of cli_parser.h read by copy.c. -/
structure parser_options where
  verbose_mode : Bool
  fsync : Bool
  check_sha256 : Bool
  num_parts : Int

/-- The fields of `file_info` (file_info.h) read by copy.c. -/
structure file_info where
  file_name : CStr
  permissions : Nat
  file_size : Int
  num_parts : Int
  part_size : Int
  last_part_size : Int
  st_mode : Option Kind
  st_dev : Nat
  st_ino : Nat
  status : Int

/-! ## Kernel model -/

/-- Split a path on slashes, dropping empty components; `cur` is the component
being read. -/
def splitPath : CStr → CStr → List CStr
  | [], cur => if cur = [] then [] else [cur]
  | c :: cs, cur =>
    if c = '/' then
      (if cur = [] then splitPath cs [] else cur :: splitPath cs [])
    else splitPath cs (cur ++ [c])

/-- Apply one path component to the components resolved so far. -/
def walkComponent (acc : List CStr) (c : CStr) : List CStr :=
  if c = ['.'] then acc
  else if c = ['.', '.'] then acc.dropLast
  else acc ++ [c]

/-- Path resolution from the root of the modelled tree (which is also the
working directory); the empty path does not resolve. -/
def resolvePath (path : CStr) : Option (List CStr) :=
  if path = [] then none else some ((splitPath path []).foldl walkComponent [])

/-- Inode number of a resolved path; the root is inode 0. -/
def lookupIno (w : World) (comps : List CStr) : Option Nat :=
  if comps = [] then some 0 else w.names.lookup comps

/-- Inode number a path names, if any. -/
def pathIno (w : World) (path : CStr) : Option Nat :=
  match resolvePath path with
  | none => none
  | some comps => lookupIno w comps

/-- Content of the file a path names, if any. -/
def fileContent (w : World) (path : CStr) : Option (List Nat) :=
  (pathIno w path).map (fun i => (w.inodes i).data)

/-- Replace one inode. -/
def setNode (f : Nat → INode) (i : Nat) (v : INode) : Nat → INode :=
  fun j => if j = i then v else f j

/-- The world with errno set. -/
def World.setErrno (w : World) (e : Errno) : World :=
  { w with errno := e }

/-- The world with the content of inode `i` replaced. -/
def World.setData (w : World) (i : Nat) (d : List Nat) : World :=
  { w with inodes := setNode w.inodes i { w.inodes i with data := d } }

/-- Inode a descriptor refers to. -/
def fdIno (w : World) (fd : Int) : Option Nat :=
  if fd < 0 then none else w.fds.lookup fd.toNat

/-- A descriptor number that is not open. -/
def freshFd (fds : List (Nat × Nat)) : Nat :=
  (fds.map Prod.fst).foldr max 0 + 1

/-- Enter a new descriptor for inode `ino`. -/
def allocFd (w : World) (ino : Nat) : Int × World :=
  (Int.ofNat (freshFd w.fds), { w with fds := (freshFd w.fds, ino) :: w.fds })

/-- Model of open(path, O_RDONLY). -/
def sys_open_rdonly (w : World) (path : CStr) : Int × World :=
  match pathIno w path with
  | none => (-1, w.setErrno Errno.ENOENT)
  | some ino => allocFd w ino

/-- Model of open(path, O_WRONLY | O_CREAT | O_TRUNC, perm): an existing regular
file is truncated, a missing entry is created in an existing parent directory. -/
def sys_open_creat_trunc (w : World) (path : CStr) (perm : Nat) : Int × World :=
  match resolvePath path with
  | none => (-1, w.setErrno Errno.ENOENT)
  | some comps =>
    match lookupIno w comps with
    | some ino =>
      match (w.inodes ino).kind with
      | Kind.reg =>
        allocFd (w.setData ino []) ino
      | Kind.dir => (-1, w.setErrno Errno.EISDIR)
      | Kind.other => allocFd w ino
    | none =>
      match lookupIno w comps.dropLast with
      | none => (-1, w.setErrno Errno.ENOENT)
      | some p =>
        match (w.inodes p).kind with
        | Kind.dir =>
          allocFd { w with
            names := (comps, w.nextIno) :: w.names
            inodes := setNode w.inodes w.nextIno
              { kind := Kind.reg, perm := perm, dev := (w.inodes p).dev, data := [] }
            nextIno := w.nextIno + 1 } w.nextIno
        | _ => (-1, w.setErrno Errno.ENOTDIR)

/-- Model of open(path, O_DIRECTORY). -/
def sys_open_directory (w : World) (path : CStr) : Int × World :=
  match pathIno w path with
  | none => (-1, w.setErrno Errno.ENOENT)
  | some ino =>
    match (w.inodes ino).kind with
    | Kind.dir => allocFd w ino
    | _ => (-1, w.setErrno Errno.ENOTDIR)

/-- Model of close(fd). -/
def sys_close (w : World) (fd : Int) : World :=
  match fdIno w fd with
  | none => w.setErrno Errno.EBADF
  | some _ => { w with fds := w.fds.filter (fun p => p.1 ≠ fd.toNat) }

/-- Bytes of `data` from offset `off`, at most `n` of them. -/
def readAt (data : List Nat) (off n : Nat) : List Nat :=
  (data.drop off).take n

/-- Content after writing `bytes` at offset `off`: a gap before the offset is
filled with zeros; writing no bytes changes nothing. -/
def writeAt (data : List Nat) (off : Nat) (bytes : List Nat) : List Nat :=
  if bytes = [] then data
  else (data ++ List.replicate (off - data.length) 0).take off ++ bytes
    ++ data.drop (off + bytes.length)

/-- Model of copy_file_range(fd_in, &off_in, fd_out, &off_out, len, 0): result,
the two offsets after the call, and the world. -/
def sys_copy_file_range (w : World) (a : KernelAnswer) (fd_in : Int) (off_in : Int)
    (fd_out : Int) (off_out : Int) (len : Nat) : Int × Int × Int × World :=
  match fdIno w fd_in, fdIno w fd_out with
  | some i, some o =>
    if off_in < 0 ∨ off_out < 0 then (-1, off_in, off_out, w.setErrno Errno.EINVAL)
    else
      match a.cfr_errno with
      | some e => (-1, off_in, off_out, w.setErrno e)
      | none =>
        let bytes := readAt (w.inodes i).data off_in.toNat (min a.cfr_max len)
        (Int.ofNat bytes.length, off_in + bytes.length, off_out + bytes.length,
          w.setData o (writeAt (w.inodes o).data off_out.toNat bytes))
  | _, _ => (-1, off_in, off_out, w.setErrno Errno.EBADF)

/-- Model of pread(fd, buffer, count, offset): result, bytes placed in the
buffer, and the world. -/
def sys_pread (w : World) (a : KernelAnswer) (fd : Int) (count : Nat) (offset : Int) :
    Int × List Nat × World :=
  match fdIno w fd with
  | none => (-1, [], w.setErrno Errno.EBADF)
  | some i =>
    if offset < 0 then (-1, [], w.setErrno Errno.EINVAL)
    else if a.pread_ret < 0 then (-1, [], w.setErrno Errno.EIO)
    else
      let bytes := readAt (w.inodes i).data offset.toNat (min a.pread_ret.toNat count)
      (Int.ofNat bytes.length, bytes, w)

/-- Model of pwrite(fd, buffer, count, offset), `buffer` holding `count` bytes. -/
def sys_pwrite (w : World) (a : KernelAnswer) (fd : Int) (buffer : List Nat) (offset : Int) :
    Int × World :=
  match fdIno w fd with
  | none => (-1, w.setErrno Errno.EBADF)
  | some o =>
    if offset < 0 then (-1, w.setErrno Errno.EINVAL)
    else if a.pwrite_ret < 0 then (-1, w.setErrno Errno.EIO)
    else
      let bytes := buffer.take a.pwrite_ret.toNat
      (Int.ofNat bytes.length, w.setData o (writeAt (w.inodes o).data offset.toNat bytes))

/-- Modelled from the spec: the part size computed by get_file_info (file_info.c
is not among the sources), floor(size / num_parts).  C division truncates; for
num_parts = 0 the quotient is taken as 0. -/
def partSizeOf (size num_parts : Int) : Int :=
  Int.tdiv size num_parts

/-- Modelled from the spec: the last-part size computed by get_file_info,
size - part_size * (num_parts - 1). -/
def lastPartSizeOf (size num_parts : Int) : Int :=
  size - partSizeOf size num_parts * (num_parts - 1)

/-- Modelled from the spec: get_file_info (file_info.c is not among the sources).
It stats the path; on failure the status is -1 and the numeric fields are zero;
otherwise the status is 0 and the part sizes are computed from the size. -/
def get_file_info (w : World) (path : CStr) (num_parts : Int) : file_info :=
  match pathIno w path with
  | none =>
    { file_name := path, permissions := 0, file_size := 0, num_parts := num_parts,
      part_size := 0, last_part_size := 0, st_mode := none, st_dev := 0, st_ino := 0,
      status := -1 }
  | some ino =>
    let nd := w.inodes ino
    let size : Int := Int.ofNat nd.data.length
    { file_name := path, permissions := nd.perm, file_size := size, num_parts := num_parts,
      part_size := partSizeOf size num_parts, last_part_size := lastPartSizeOf size num_parts,
      st_mode := some nd.kind, st_dev := nd.dev, st_ino := ino, status := 0 }

/-! ## copy.c: the chunk copier and the two copy drivers -/

/-- The errno values after which `secure_copy_chunk` falls back to pread/pwrite. -/
def fallbackErrno (e : Errno) : Bool :=
  e = Errno.EXDEV ∨ e = Errno.EOPNOTSUPP ∨ e = Errno.ENOSYS ∨ e = Errno.EINVAL

/-- `secure_copy_chunk`: result, the two offsets after the call, and the world.
The call consumes the kernel answer at the current tick. -/
def secure_copy_chunk (w : World) (fd_src : Int) (src_offset : Int) (fd_dst : Int)
    (dst_offset : Int) (bytes_to_copy : Nat) : Int × Int × Int × World :=
  let a := w.answers w.tick
  let w0 := { w with tick := w.tick + 1 }
  let (copy_result, so, dof, w1) :=
    sys_copy_file_range w0 a fd_src src_offset fd_dst dst_offset bytes_to_copy
  if copy_result ≥ 0 then (copy_result, so, dof, w1)
  else if fallbackErrno w1.errno then
    let (bytes_read, buffer, w2) := sys_pread w1 a fd_src bytes_to_copy so
    if bytes_read ≤ 0 then (bytes_read, so, dof, w2)
    else
      let (bytes_written, w3) := sys_pwrite w2 a fd_dst buffer dof
      if bytes_written > 0 then (bytes_written, so + bytes_written, dof + bytes_written, w3)
      else (bytes_written, so, dof, w3)
  else (-1, so, dof, w1)

/-- The chunk size of one iteration: min(remaining, BUFFER_SIZE). -/
def chunkSize (BUFFER_SIZE : Nat) (total_size written : Int) : Nat :=
  if (total_size - written).toNat > BUFFER_SIZE then BUFFER_SIZE
  else (total_size - written).toNat

/-- The loop `while (total_written < total_size)` of `copy_full`; on a negative
chunk result both descriptors are closed and ERR_COPY_FILE_FULL_FAIL returned. -/
def copy_full_loop (BUFFER_SIZE : Nat) (fd_src fd_dst : Int) (total_size : Int) :
    Nat → World → Int → Int → Int → Option ErrorCode × World
  | 0, w, _, _, _ => (none, w)
  | fuel + 1, w, total_written, src_offset, dst_offset =>
    if total_written < total_size then
      let to_copy := chunkSize BUFFER_SIZE total_size total_written
      let (bytes_copied, so, dof, w1) :=
        secure_copy_chunk w fd_src src_offset fd_dst dst_offset to_copy
      if bytes_copied < 0 then
        (some ErrorCode.ERR_COPY_FILE_FULL_FAIL, sys_close (sys_close w1 fd_src) fd_dst)
      else copy_full_loop BUFFER_SIZE fd_src fd_dst total_size fuel w1
        (total_written + bytes_copied) so dof
    else (some ErrorCode.ERR_OK, w)

/-- `copy_full`. -/
def copy_full (BUFFER_SIZE fuel : Nat) (w : World) (fd_src fd_dst : Int)
    (src_info : file_info) : Option ErrorCode × World :=
  copy_full_loop BUFFER_SIZE fd_src fd_dst src_info.file_size fuel w 0 0 0

/-- A C `int` after an arithmetic step: the value kept in 32 bits. -/
def wrapInt32 (x : Int) : Int :=
  (x + 2147483648) % 4294967296 - 2147483648

/-- The inner loop `while (part_written < total_size)` of `copy_part` for one
part.  The first component is `none` when the part has been copied completely,
`some (some e)` when the function returns `e` from inside the loop, and
`some none` when the fuel has run out. -/
def copy_part_loop (BUFFER_SIZE : Nat) (fd_src fd_dst : Int) (total_size : Int) :
    Nat → World → Int → Int → Int → Option (Option ErrorCode) × World
  | 0, w, _, _, _ => (some none, w)
  | fuel + 1, w, part_written, src_offset, dst_offset =>
    if part_written < total_size then
      let to_copy := chunkSize BUFFER_SIZE total_size part_written
      let (bytes_copied, so, dof, w1) :=
        secure_copy_chunk w fd_src src_offset fd_dst dst_offset to_copy
      if bytes_copied < 0 then
        (some (some ErrorCode.ERR_COPY_FILE_PART_COPY), sys_close (sys_close w1 fd_src) fd_dst)
      else copy_part_loop BUFFER_SIZE fd_src fd_dst total_size fuel w1
        (part_written + bytes_copied) so dof
    else (none, w)

/-- The size of part `i` in `copy_part`:
`(i == src_info.num_parts) ? last_part_size : part_size`. -/
def partLen (num_parts part_size last_part_size i : Int) : Int :=
  if i = num_parts then last_part_size else part_size

/-- The offset at which part `i` starts in both files in `copy_part`:
`(i - 1) * part_size`. -/
def partStart (part_size i : Int) : Int :=
  (i - 1) * part_size

/-- The loop `for (int i = 1; i <= src_info.num_parts; i++)` of `copy_part`;
`inner` is the fuel of the inner loop of each part.  The counter is an `int`:
`i++` keeps it in 32 bits (`i - 1` cannot leave the range before `i++` has). -/
def copy_part_parts (BUFFER_SIZE : Nat) (fd_src fd_dst : Int) (src_info : file_info)
    (inner : Nat) : Nat → World → Int → Option ErrorCode × World
  | 0, w, _ => (none, w)
  | fuel + 1, w, i =>
    if i ≤ src_info.num_parts then
      let total_size :=
        partLen src_info.num_parts src_info.part_size src_info.last_part_size i
      let src_offset := partStart src_info.part_size i
      let dst_offset := partStart src_info.part_size i
      match copy_part_loop BUFFER_SIZE fd_src fd_dst total_size inner w 0 src_offset dst_offset with
      | (some r, w1) => (r, w1)
      | (none, w1) =>
        copy_part_parts BUFFER_SIZE fd_src fd_dst src_info inner fuel w1 (wrapInt32 (i + 1))
    else (some ErrorCode.ERR_OK, w)

/-- `copy_part`. -/
def copy_part (BUFFER_SIZE fuel : Nat) (w : World) (fd_src fd_dst : Int)
    (src_info : file_info) : Option ErrorCode × World :=
  copy_part_parts BUFFER_SIZE fd_src fd_dst src_info fuel fuel w 1

/-- In-place dirname(3) on the buffer: the buffer is cut at its last slash (kept
when it is the first character); a buffer without a slash is left as it is. -/
def dirnameBuf (buf : CStr) : CStr :=
  match (buf.reverse.dropWhile (fun c => c = '/')).dropWhile (fun c => c ≠ '/') with
  | [] => buf
  | rest =>
    match (rest.dropWhile (fun c => c = '/')).reverse with
    | [] => ['/']
    | d => d

/-- The fsync block of `copy`: the directory of the destination is opened, both
descriptors are synced, the directory descriptor is closed. -/
def fsyncBlock (PATH_MAX : Nat) (w : World) (dst_name : CStr) : World :=
  let dst_dir := dirnameBuf (dst_name.take (PATH_MAX - 1))
  let (fd_dst_dir, w1) := sys_open_directory w dst_dir
  sys_close w1 fd_dst_dir

/-- `copy`.  Printing and the SHA-256 comparison (external collaborators that
only read) leave the modelled state unchanged and are left out. -/
def copy (BUFFER_SIZE PATH_MAX fuel : Nat) (w : World) (src dst : CStr) (num_parts : Int)
    (cli_options : parser_options) : Option ErrorCode × World :=
  let src_info := get_file_info w src num_parts
  let dst_info := get_file_info w dst num_parts
  let (fd_src, w1) := sys_open_rdonly w src_info.file_name
  if fd_src = -1 then (some ErrorCode.ERR_COPY_FILE_OPEN, w1)
  else
    let (fd_dst, w2) := sys_open_creat_trunc w1 dst_info.file_name src_info.permissions
    if fd_dst = -1 then (some ErrorCode.ERR_COPY_FILE_CREATE, w2)
    else
      let src_info := get_file_info w2 src num_parts
      let dst_info := get_file_info w2 dst num_parts
      let finish (w3 : World) : Option ErrorCode × World :=
        let w4 := if cli_options.fsync then fsyncBlock PATH_MAX w3 dst_info.file_name else w3
        (some ErrorCode.ERR_OK, sys_close (sys_close w4 fd_src) fd_dst)
      if num_parts = 1 then
        match copy_full BUFFER_SIZE fuel w2 fd_src fd_dst src_info with
        | (none, w3) => (none, w3)
        | (some status, w3) =>
          if status = ErrorCode.ERR_COPY_FILE_FULL_FAIL then
            (some ErrorCode.ERR_COPY_FILE_FULL_FAIL, w3)
          else finish w3
      else if num_parts > 1 then
        match copy_part BUFFER_SIZE fuel w2 fd_src fd_dst src_info with
        | (none, w3) => (none, w3)
        | (some status, w3) =>
          if status = ErrorCode.ERR_COPY_FILE_PART_COPY then
            (some ErrorCode.ERR_COPY_FILE_PART_COPY, w3)
          else finish w3
      else (some ErrorCode.ERR_COPY_FILE_NOT_ALLOWED, w2)

/-! ## copy.c: path materialisation and directory replication -/

/-- Model of mkdir(path, mode): fails with EEXIST when the path names an entry,
creates a directory when the parent is an existing directory. -/
def sys_mkdir (w : World) (path : CStr) (mode : Nat) : Int × World :=
  let w := { w with log := w.log ++ [Call.mkdir path] }
  match resolvePath path with
  | none => (-1, w.setErrno Errno.ENOENT)
  | some comps =>
    match lookupIno w comps with
    | some _ => (-1, w.setErrno Errno.EEXIST)
    | none =>
      match lookupIno w comps.dropLast with
      | none => (-1, w.setErrno Errno.ENOENT)
      | some p =>
        match (w.inodes p).kind with
        | Kind.dir =>
          (0, { w with
            names := (comps, w.nextIno) :: w.names
            inodes := setNode w.inodes w.nextIno
              { kind := Kind.dir, perm := mode, dev := (w.inodes p).dev, data := [] }
            nextIno := w.nextIno + 1 })
        | _ => (-1, w.setErrno Errno.ENOTDIR)

/-- Model of stat(path, &st): result, the type bits of st.st_mode, the world. -/
def sys_stat (w : World) (path : CStr) : Int × Option Kind × World :=
  let w := { w with log := w.log ++ [Call.stat path] }
  match pathIno w path with
  | none => (-1, none, w.setErrno Errno.ENOENT)
  | some ino => (0, some (w.inodes ino).kind, w)

/-- The macro S_ISDIR on the type bits. -/
def S_ISDIR (m : Option Kind) : Bool := m = some Kind.dir

/-- The macro S_ISREG on the type bits. -/
def S_ISREG (m : Option Kind) : Bool := m = some Kind.reg

/-- The statement `if (mkdir(tmp, mode) != 0) { ... }` of `mkdir_p`, executed for
the string `tmp`; `some e` is a return of `e`, `none` falls through. -/
def mkdir_p_step (w : World) (tmp : CStr) (mode : Nat) : Option ErrorCode × World :=
  let (r, w1) := sys_mkdir w tmp mode
  if r ≠ 0 then
    if w1.errno = Errno.EEXIST then
      let (sr, st_mode, w2) := sys_stat w1 tmp
      if sr ≠ 0 ∨ ¬ S_ISDIR st_mode then
        (some ErrorCode.ERR_UNKNOWN, w2.setErrno Errno.ENOTDIR)
      else (none, w2)
    else (some ErrorCode.ERR_UNKNOWN, w1)
  else (none, w1)

/-- The loop `for (p = tmp + 1; *p; p++)` of `mkdir_p`: `pre` holds the
characters of tmp before p (the string tmp names while `*p` is NUL), `rest`
the characters from p on. -/
def mkdir_p_loop (mode : Nat) : World → CStr → CStr → Option ErrorCode × World
  | w, _, [] => (none, w)
  | w, pre, c :: rest =>
    if c = '/' then
      match mkdir_p_step w pre mode with
      | (some e, w1) => (some e, w1)
      | (none, w1) => mkdir_p_loop mode w1 (pre ++ [c]) rest
    else mkdir_p_loop mode w (pre ++ [c]) rest

/-- `mkdir_p`; a null pointer is `none`.  `snprintf(tmp, sizeof(tmp), "%s", path)`
keeps the first PATH_MAX - 1 characters. -/
def mkdir_p (PATH_MAX : Nat) (w : World) (path : Option CStr) (mode : Nat) :
    ErrorCode × World :=
  match path with
  | none => (ErrorCode.ERR_UNKNOWN, w.setErrno Errno.EINVAL)
  | some path =>
    if path = [] then (ErrorCode.ERR_UNKNOWN, w.setErrno Errno.EINVAL)
    else
      let tmp := path.take (PATH_MAX - 1)
      let len := tmp.length
      if len = 0 ∨ len ≥ PATH_MAX then
        (ErrorCode.ERR_UNKNOWN, w.setErrno Errno.ENAMETOOLONG)
      else
        let tmp := if tmp.getLast? = some '/' then tmp.dropLast else tmp
        match mkdir_p_loop mode w (tmp.take 1) (tmp.drop 1) with
        | (some e, w1) => (e, w1)
        | (none, w1) =>
          match mkdir_p_step w1 tmp mode with
          | (some e, w2) => (e, w2)
          | (none, w2) => (ErrorCode.ERR_OK, w2)

/-- Model of opendir followed by the readdir stream: the entries of the
directory at the time it is opened, "." and ".." first. -/
def sys_opendir (w : World) (path : CStr) : Option (List CStr) :=
  match resolvePath path with
  | none => none
  | some comps =>
    match lookupIno w comps with
    | none => none
    | some ino =>
      match (w.inodes ino).kind with
      | Kind.dir =>
        some (['.'] :: ['.', '.'] :: w.names.filterMap
          (fun e => if e.1.dropLast = comps then e.1.getLast? else none))
      | _ => none

/-- The result of `snprintf(buf, PATH_MAX, "%s/%s", dir, name)`. -/
def joinPath (PATH_MAX : Nat) (dir name : CStr) : CStr :=
  (dir ++ ['/'] ++ name).take (PATH_MAX - 1)

/-- Append a call to the call log. -/
def logCall (w : World) (c : Call) : World :=
  { w with log := w.log ++ [c] }

/-- The loop `while ((entry = readdir(dir)) != NULL)` of `copy_directory` over
the entries still to be read, followed by closedir and `return ERR_OK`.
`recCall` is the recursive call of copy_directory and `copyCall` the call of
copy; a call that does not return (`none`) keeps the loop from returning. -/
def copy_directory_entries (PATH_MAX : Nat)
    (recCall : World → CStr → CStr → Option ErrorCode × World)
    (copyCall : World → CStr → CStr → Int → Option ErrorCode × World)
    (src dst : CStr) (cli_options : parser_options) :
    List CStr → World → Option ErrorCode × World
  | [], w => (some ErrorCode.ERR_OK, w)
  | d_name :: rest, w =>
    if d_name = ['.'] ∨ d_name = ['.', '.'] then
      copy_directory_entries PATH_MAX recCall copyCall src dst cli_options rest w
    else
      let src_path := joinPath PATH_MAX src d_name
      let dst_path := joinPath PATH_MAX dst d_name
      let src_info := get_file_info w src_path cli_options.num_parts
      let dst_info := get_file_info w dst_path cli_options.num_parts
      if src_info.status = 0 ∧ dst_info.status = 0 ∧
          src_info.st_ino = dst_info.st_ino ∧ src_info.st_dev = dst_info.st_dev then
        copy_directory_entries PATH_MAX recCall copyCall src dst cli_options rest w
      else
        let current_src_info := get_file_info w src_path 1
        if current_src_info.status = -1 then
          copy_directory_entries PATH_MAX recCall copyCall src dst cli_options rest w
        else if S_ISDIR current_src_info.st_mode then
          match recCall (logCall w (Call.copy_directory src_path dst_path)) src_path dst_path with
          | (none, w1) => (none, w1)
          | (some _, w1) =>
            copy_directory_entries PATH_MAX recCall copyCall src dst cli_options rest w1
        else if S_ISREG current_src_info.st_mode then
          match copyCall (logCall w (Call.copy src_path dst_path cli_options.num_parts))
              src_path dst_path cli_options.num_parts with
          | (none, w1) => (none, w1)
          | (some _, w1) =>
            copy_directory_entries PATH_MAX recCall copyCall src dst cli_options rest w1
        else copy_directory_entries PATH_MAX recCall copyCall src dst cli_options rest w

/-- The body of `copy_directory`, with the recursive call and the call of copy
as parameters.  ERR_OK is taken to be EXIT_SUCCESS (0). -/
def copy_directory_body (PATH_MAX : Nat)
    (recCall : World → CStr → CStr → Option ErrorCode × World)
    (copyCall : World → CStr → CStr → Int → Option ErrorCode × World)
    (w : World) (src dst : CStr) (cli_options : parser_options) :
    Option ErrorCode × World :=
  let src_info := get_file_info w src 1
  if ¬ S_ISDIR src_info.st_mode then (some ErrorCode.ERR_COPY_DIR_SRC_PATH_INFO, w)
  else
    let (r, w1) := mkdir_p PATH_MAX w (some dst) src_info.permissions
    if r ≠ ErrorCode.ERR_OK ∧ w1.errno ≠ Errno.EEXIST then
      (some ErrorCode.ERR_COPY_DIR_MKDIR_FAIL, w1)
    else
      match sys_opendir w1 src with
      | none => (some ErrorCode.ERR_COPY_DIR_OPEN, w1)
      | some entries =>
        copy_directory_entries PATH_MAX recCall copyCall src dst cli_options entries w1

/-- `copy_directory`: `fuel` bounds the depth of the recursion, `cfuel` is the
fuel of each call of copy. -/
def copy_directory (BUFFER_SIZE PATH_MAX cfuel : Nat) :
    Nat → World → CStr → CStr → parser_options → Option ErrorCode × World
  | 0, w, _, _, _ => (none, w)
  | fuel + 1, w, src, dst, cli_options =>
    copy_directory_body PATH_MAX
      (fun w1 s d => copy_directory BUFFER_SIZE PATH_MAX cfuel fuel w1 s d cli_options)
      (fun w1 s d n => copy BUFFER_SIZE PATH_MAX cfuel w1 s d n cli_options)
      w src dst cli_options

/-! ## Predicates used in the statements -/

/-- A kernel answer under which a chunk transfer moves at least one byte:
either copy_file_range succeeds and is ready to move a byte, or it fails with
one of the fallback errnos and both pread and pwrite are ready to move a byte.
(The system calls never move more than they are asked for.) -/
def goodAnswer (a : KernelAnswer) : Prop :=
  (a.cfr_errno = none ∧ 1 ≤ a.cfr_max) ∨
  (∃ e, a.cfr_errno = some e ∧ fallbackErrno e = true ∧ 1 ≤ a.pread_ret ∧ 1 ≤ a.pwrite_ret)

/-- A kernel answer under which a chunk transfer moves no byte and reports no
error: copy_file_range succeeds with 0 bytes, or it fails with a fallback errno
and pread returns 0 (end of file) or pwrite writes 0 bytes. -/
def zeroAnswer (a : KernelAnswer) : Prop :=
  (a.cfr_errno = none ∧ a.cfr_max = 0) ∨
  (∃ e, a.cfr_errno = some e ∧ fallbackErrno e = true ∧
    (a.pread_ret = 0 ∨ (0 < a.pread_ret ∧ a.pwrite_ret = 0)))

/-- The inode numbers in use are below the next number the kernel hands out. -/
def World.wellFormed (w : World) : Prop :=
  0 < w.nextIno ∧ ∀ e ∈ w.names, e.2 < w.nextIno

/-- The destination can be opened for writing: it is a regular file, or it is
absent and its parent is a directory. -/
def dstWritable (w : World) (dst : CStr) : Prop :=
  (∃ i, pathIno w dst = some i ∧ (w.inodes i).kind = Kind.reg) ∨
  (pathIno w dst = none ∧ ∃ comps p, resolvePath dst = some comps ∧
    lookupIno w comps.dropLast = some p ∧ (w.inodes p).kind = Kind.dir)

/-- The path names a directory. -/
def isDirPath (w : World) (p : CStr) : Prop :=
  ∃ i, pathIno w p = some i ∧ (w.inodes i).kind = Kind.dir

/-- The state of a copy in progress relative to the state `w0` in which both
descriptors had just been opened: directory table, descriptors and kernel
answers are those of `w0`, the source inode `iS` has its content, and the
destination inode `iD` holds the first `n` bytes of it. -/
structure CopyInv (w0 w : World) (iS iD n : Nat) : Prop where
  names : w.names = w0.names
  fds : w.fds = w0.fds
  answers : w.answers = w0.answers
  src : (w.inodes iS).data = (w0.inodes iS).data
  dst : (w.inodes iD).data = ((w0.inodes iS).data).take n

/-- Every chunk call made by the first `fuel` iterations of the copy loop
(`while (written < total_size)`, the same in copy_full and copy_part) started
in the given state returns a negative value or a value between 1 and the
requested count. -/
def chunkResultsNonzero (BUFFER_SIZE : Nat) (fd_src fd_dst : Int) (total_size : Int) :
    Nat → World → Int → Int → Int → Prop
  | 0, _, _, _, _ => True
  | fuel + 1, w, written, src_offset, dst_offset =>
    if written < total_size then
      let r := secure_copy_chunk w fd_src src_offset fd_dst dst_offset
        (chunkSize BUFFER_SIZE total_size written)
      (r.1 < 0 ∨ (1 ≤ r.1 ∧ r.1 ≤ chunkSize BUFFER_SIZE total_size written)) ∧
      (0 ≤ r.1 →
        chunkResultsNonzero BUFFER_SIZE fd_src fd_dst total_size fuel r.2.2.2
          (written + r.1) r.2.1 r.2.2.1)
    else True

/-- `chunkResultsNonzero` can be decided by running the loop. -/
instance chunkResultsNonzero_decidable (B : Nat) (fs fd : Int) (total : Int) :
    ∀ (fuel : Nat) (w : World) (tw so dof : Int),
      Decidable (chunkResultsNonzero B fs fd total fuel w tw so dof)
  | 0, _, _, _, _ => isTrue trivial
  | fuel + 1, w, tw, so, dof => by
    unfold chunkResultsNonzero
    have := chunkResultsNonzero_decidable B fs fd total fuel
    exact inferInstance

/-- The strings on which the loop of mkdir_p calls mkdir when it runs to its
end: for each slash in `rest`, the characters before it (`pre` followed by the
part of `rest` already passed). -/
def slashPrefixes : CStr → CStr → List CStr
  | _, [] => []
  | pre, c :: rest =>
    if c = '/' then pre :: slashPrefixes (pre ++ [c]) rest
    else slashPrefixes (pre ++ [c]) rest

/-! ## Byte ranges of the parts -/

/-- Offset `x` lies in the byte range `copy_part` assigns to part `i` of a file
of `size` bytes copied in `num_parts` parts. -/
def inPart (size num_parts i x : Int) : Prop :=
  partStart (partSizeOf size num_parts) i ≤ x ∧
    x < partStart (partSizeOf size num_parts) i +
      partLen num_parts (partSizeOf size num_parts) (lastPartSizeOf size num_parts) i

/-! ## Concrete inputs -/

/-- Inode table of `sampleWorld`. -/
def sampleNodes : Nat → INode
  | 0 => { kind := Kind.dir, perm := 493, dev := 0, data := [] }
  | 1 => { kind := Kind.dir, perm := 493, dev := 0, data := [] }
  | 2 => { kind := Kind.reg, perm := 420, dev := 0, data := [1, 2, 3, 4, 5] }
  | 3 => { kind := Kind.reg, perm := 420, dev := 0, data := [9, 9] }
  | _ => { kind := Kind.other, perm := 0, dev := 0, data := [] }

/-- Kernel answers of `sampleWorld`: at even ticks copy_file_range moves up to
two bytes, at odd ticks it fails with EXDEV, pread reads up to three bytes and
pwrite writes one. -/
def sampleAnswers (t : Nat) : KernelAnswer :=
  if t % 2 = 0 then { cfr_errno := none, cfr_max := 2, pread_ret := 0, pwrite_ret := 0 }
  else { cfr_errno := some Errno.EXDEV, cfr_max := 0, pread_ret := 3, pwrite_ret := 1 }

/-- A small machine: directory /s holding the five-byte file /s/f, and the
two-byte file /g; no descriptor is open. -/
def sampleWorld : World :=
  { names := [([['s'], ['f']], 2), ([['s']], 1), ([['g']], 3)]
    inodes := sampleNodes
    nextIno := 4
    fds := []
    errno := Errno.E0
    answers := sampleAnswers
    tick := 0
    log := [] }

/-- Options with everything switched off and one part. -/
def plainOptions : parser_options :=
  { verbose_mode := false, fsync := false, check_sha256 := false, num_parts := 1 }

/-- The sample machine with /s/f open as descriptor 1 and /g open as
descriptor 2. -/
def openedWorld : World :=
  { sampleWorld with fds := [(2, 3), (1, 2)] }

/-- The sample machine with /s/f open as descriptor 1 and /g open as
descriptor 2, and a kernel that moves no byte in any transfer. -/
def stalledWorld : World :=
  { sampleWorld with
    fds := [(2, 3), (1, 2)]
    answers := fun _ => { cfr_errno := none, cfr_max := 0, pread_ret := 0, pwrite_ret := 0 } }

/-- Inodes of `bigWorld`: as `sampleNodes`, with 2147483647 zero bytes in
inode 2. -/
def bigNodes : Nat → INode
  | 0 => { kind := Kind.dir, perm := 493, dev := 0, data := [] }
  | 1 => { kind := Kind.dir, perm := 493, dev := 0, data := [] }
  | 2 => { kind := Kind.reg, perm := 420, dev := 0, data := List.replicate 2147483647 0 }
  | 3 => { kind := Kind.reg, perm := 420, dev := 0, data := [9, 9] }
  | _ => { kind := Kind.other, perm := 0, dev := 0, data := [] }

/-- The sample machine with a file /s/f of 2147483647 (INT_MAX) bytes. -/
def bigWorld : World :=
  { sampleWorld with inodes := bigNodes }

/-! ## The per-entry policy of the directory replicator, from the specification -/

/-- What the directory replicator does with one directory entry. -/
inductive EntryAction
  | skip
  | recurse
  | copyFile
  deriving DecidableEq, Repr

/-- Specification side: the per-entry policy of the directory replicator
(§4.4, step 3), decided in the state in which the entry is reached.  The
pseudo-entries "." and ".." are left out; an entry whose source and destination
paths both resolve and share device id and inode number is skipped (3b); an
entry whose stat fails is skipped (3c); a directory is recursed into (3d); a
regular file is handed to copy (3e); any other type is skipped (3f). -/
def specEntryAction (PATH_MAX : Nat) (src dst : CStr) (cli_options : parser_options)
    (w : World) (d_name : CStr) : EntryAction :=
  let src_path := joinPath PATH_MAX src d_name
  let dst_path := joinPath PATH_MAX dst d_name
  let src_id := get_file_info w src_path cli_options.num_parts
  let dst_id := get_file_info w dst_path cli_options.num_parts
  let src_type := get_file_info w src_path 1
  if d_name = ['.'] ∨ d_name = ['.', '.'] then EntryAction.skip
  else if src_id.status = 0 ∧ dst_id.status = 0 ∧
      src_id.st_dev = dst_id.st_dev ∧ src_id.st_ino = dst_id.st_ino then EntryAction.skip
  else if src_type.status = -1 then EntryAction.skip
  else if S_ISDIR src_type.st_mode then EntryAction.recurse
  else if S_ISREG src_type.st_mode then EntryAction.copyFile
  else EntryAction.skip

/-- Specification side: the status and state the call made for one entry
comes back with, under the policy of §4.4: the recursive call for a directory,
the call of copy with the configured part count for a regular file, and no call
(`none`) for a skipped entry. -/
def specEntryCall (PATH_MAX : Nat)
    (recCall : World → CStr → CStr → Option ErrorCode × World)
    (copyCall : World → CStr → CStr → Int → Option ErrorCode × World)
    (src dst : CStr) (cli_options : parser_options)
    (w : World) (d_name : CStr) : Option (Option ErrorCode × World) :=
  let src_path := joinPath PATH_MAX src d_name
  let dst_path := joinPath PATH_MAX dst d_name
  match specEntryAction PATH_MAX src dst cli_options w d_name with
  | EntryAction.skip => none
  | EntryAction.recurse =>
    some (recCall (logCall w (Call.copy_directory src_path dst_path)) src_path dst_path)
  | EntryAction.copyFile =>
    some (copyCall (logCall w (Call.copy src_path dst_path cli_options.num_parts))
      src_path dst_path cli_options.num_parts)

/-- Specification side: the state after one entry has been dealt with, which
is the state its call leaves behind whatever status the call reports (§4.4, 3d
and 3e: a failure is logged and the sibling loop continues), and the state
before it when the entry is skipped. -/
def specEntryStep (PATH_MAX : Nat)
    (recCall : World → CStr → CStr → Option ErrorCode × World)
    (copyCall : World → CStr → CStr → Int → Option ErrorCode × World)
    (src dst : CStr) (cli_options : parser_options)
    (w : World) (d_name : CStr) : World :=
  match specEntryCall PATH_MAX recCall copyCall src dst cli_options w d_name with
  | none => w
  | some r => r.2

/-- Specification side: the walk over the entries of a directory (§4.4,
steps 3 and 4): every entry is dealt with in turn, in the state its predecessors
left behind. -/
def specWalk (PATH_MAX : Nat)
    (recCall : World → CStr → CStr → Option ErrorCode × World)
    (copyCall : World → CStr → CStr → Int → Option ErrorCode × World)
    (src dst : CStr) (cli_options : parser_options)
    (entries : List CStr) (w : World) : World :=
  entries.foldl (specEntryStep PATH_MAX recCall copyCall src dst cli_options) w

/-- Every call made during the walk over `entries` from state `w` returns (with
whatever status): the call for the first entry, if one is made, returns, and so
do the calls for the remaining entries from the state it leaves behind. -/
def entryCallsReturn (PATH_MAX : Nat)
    (recCall : World → CStr → CStr → Option ErrorCode × World)
    (copyCall : World → CStr → CStr → Int → Option ErrorCode × World)
    (src dst : CStr) (cli_options : parser_options) :
    List CStr → World → Prop
  | [], _ => True
  | d_name :: rest, w =>
    (∀ r, specEntryCall PATH_MAX recCall copyCall src dst cli_options w d_name = some r →
      r.1 ≠ none) ∧
    entryCallsReturn PATH_MAX recCall copyCall src dst cli_options rest
      (specEntryStep PATH_MAX recCall copyCall src dst cli_options w d_name)

/-- `entryCallsReturn` can be decided by running the calls. -/
instance entryCallsReturn_decidable (PATH_MAX : Nat)
    (recCall : World → CStr → CStr → Option ErrorCode × World)
    (copyCall : World → CStr → CStr → Int → Option ErrorCode × World)
    (src dst : CStr) (cli_options : parser_options) :
    ∀ (entries : List CStr) (w : World),
      Decidable (entryCallsReturn PATH_MAX recCall copyCall src dst cli_options entries w)
  | [], _ => isTrue trivial
  | d_name :: rest, w => by
    unfold entryCallsReturn
    have := entryCallsReturn_decidable PATH_MAX recCall copyCall src dst cli_options rest
    have h1 : Decidable (∀ r,
        specEntryCall PATH_MAX recCall copyCall src dst cli_options w d_name = some r →
          r.1 ≠ none) :=
      match specEntryCall PATH_MAX recCall copyCall src dst cli_options w d_name with
      | none => isTrue (fun _ h => by cases h)
      | some r0 =>
        if h0 : r0.1 = none then isFalse (fun h => h r0 rfl h0)
        else isTrue (fun r h => by cases h; exact h0)
    exact inferInstance

/-- Inodes of `mixedWorld`. -/
def mixedNodes : Nat → INode
  | 0 => { kind := Kind.dir, perm := 493, dev := 0, data := [] }
  | 1 => { kind := Kind.dir, perm := 493, dev := 0, data := [] }
  | 2 => { kind := Kind.reg, perm := 420, dev := 0, data := [1, 2] }
  | 3 => { kind := Kind.dir, perm := 493, dev := 0, data := [] }
  | 4 => { kind := Kind.other, perm := 420, dev := 0, data := [] }
  | 5 => { kind := Kind.reg, perm := 420, dev := 0, data := [3] }
  | 6 => { kind := Kind.reg, perm := 420, dev := 0, data := [4, 5, 6] }
  | 7 => { kind := Kind.dir, perm := 493, dev := 0, data := [] }
  | 8 => { kind := Kind.dir, perm := 493, dev := 0, data := [] }
  | 9 => { kind := Kind.reg, perm := 420, dev := 0, data := [7] }
  | 10 => { kind := Kind.reg, perm := 420, dev := 0, data := [8] }
  | _ => { kind := Kind.other, perm := 0, dev := 0, data := [] }

/-- A directory with entries of every kind.  /s holds, in the order readdir
reports them, the file a, the file zz, the directory d, the entry x that is
neither file nor directory, and the files b and c; /t exists already, with a
directory at /t/b and a regular file at /t/d.  No descriptor is open. -/
def mixedWorld : World :=
  { names := [([['s']], 1), ([['s'], ['a']], 2), ([['s'], ['z', 'z']], 10), ([['s'], ['d']], 3),
      ([['s'], ['x']], 4), ([['s'], ['b']], 5), ([['s'], ['c']], 6), ([['t']], 7),
      ([['t'], ['b']], 8), ([['t'], ['d']], 9)]
    inodes := mixedNodes
    nextIno := 11
    fds := []
    errno := Errno.E0
    answers := sampleAnswers
    tick := 0
    log := [] }

/-- The entries readdir reports for /s of `mixedWorld`. -/
def mixedEntries : List CStr :=
  [['.'], ['.', '.'], ['a'], ['z', 'z'], ['d'], ['x'], ['b'], ['c']]

/-- The state of `mixedWorld` after `copy_directory` from /s to /t, with
PATH_MAX = 5, has called mkdir_p on /t. -/
def mixedStart : World :=
  (mkdir_p 5 mixedWorld (some ['/', 't']) (get_file_info mixedWorld ['/', 's'] 1).permissions).2

/-- The recursive call made by `copy_directory 4 5 10 2` (BUFFER_SIZE 4,
PATH_MAX 5, fuel 10 for each copy). -/
def mixedRec (w : World) (s d : CStr) : Option ErrorCode × World :=
  copy_directory 4 5 10 1 w s d plainOptions

/-- The call of copy made by `copy_directory 4 5 10 2`. -/
def mixedCopy (w : World) (s d : CStr) (n : Int) : Option ErrorCode × World :=
  copy 4 5 10 w s d n plainOptions

/-! # Lemmas and theorems -/

/-! ## Part sizes (shared by C8 and C2) -/

theorem partSizeOf_eq_ediv (size n : Int) (hs : 0 ≤ size) (hn : 1 ≤ n) :
    partSizeOf size n = size / n := by
  unfold partSizeOf
  exact Int.tdiv_eq_ediv hs (by omega)

theorem partSizeOf_nonneg (size n : Int) (hs : 0 ≤ size) (hn : 1 ≤ n) : 0 ≤ partSizeOf size n := by
  rw [partSizeOf_eq_ediv size n hs hn]
  exact Int.ediv_nonneg hs (by omega)

theorem partSizeOf_mul_le (size n : Int) (hs : 0 ≤ size) (hn : 1 ≤ n) : partSizeOf size n * n ≤ size := by
  rw [partSizeOf_eq_ediv size n hs hn]
  exact Int.ediv_mul_le size (by omega)

theorem partSizeOf_le_last (size n : Int) (hs : 0 ≤ size) (hn : 1 ≤ n) :
    partSizeOf size n ≤ lastPartSizeOf size n := by
  have hle := partSizeOf_mul_le size n hs hn
  unfold lastPartSizeOf
  have : partSizeOf size n * n
      = partSizeOf size n * (n - 1) + partSizeOf size n := by ring
  omega

/-! ## List facts -/

theorem take_length_take (l : List Nat) (j : Nat) : l.take (l.take j).length = l.take j := by
  rw [List.length_take]
  rcases le_total j l.length with h | h
  · rw [min_eq_left h]
  · rw [min_eq_right h, List.take_of_length_le h, List.take_of_length_le (le_refl _)]

theorem writeAt_extend (c : List Nat) (m j : Nat) (hm : m ≤ c.length) :
    writeAt (c.take m) m ((c.drop m).take j) = c.take (m + ((c.drop m).take j).length) := by
  unfold writeAt
  split
  · next h => rw [h]; simp
  · have h1 : (c.take m).length = m := by simp [hm]
    have h2 : List.drop (m + ((c.drop m).take j).length) (List.take m c) = [] := by
      apply List.drop_eq_nil_of_le; omega
    rw [h1, h2]
    simp only [Nat.sub_self, List.replicate_zero, List.append_nil]
    rw [List.take_take, Nat.min_self]
    rw [List.take_add, take_length_take]

theorem take_drop_length_pos (c : List Nat) (m j : Nat) (hm : m < c.length) (hj : 1 ≤ j) :
    1 ≤ ((c.drop m).take j).length ∧ ((c.drop m).take j).length ≤ j ∧
      m + ((c.drop m).take j).length ≤ c.length := by
  simp only [List.length_take, List.length_drop]
  omega

/-! ## World updates -/

theorem setNode_same (f : Nat → INode) (i : Nat) (v : INode) : setNode f i v i = v := by
  simp [setNode]

theorem setNode_other (f : Nat → INode) (i j : Nat) (v : INode) (h : j ≠ i) :
    setNode f i v j = f j := by
  simp [setNode, h]

@[simp] theorem setErrno_names (w : World) (e : Errno) : (w.setErrno e).names = w.names := rfl
@[simp] theorem setErrno_inodes (w : World) (e : Errno) : (w.setErrno e).inodes = w.inodes := rfl
@[simp] theorem setErrno_fds (w : World) (e : Errno) : (w.setErrno e).fds = w.fds := rfl
@[simp] theorem setErrno_answers (w : World) (e : Errno) : (w.setErrno e).answers = w.answers := rfl
@[simp] theorem setErrno_errno (w : World) (e : Errno) : (w.setErrno e).errno = e := rfl
@[simp] theorem setErrno_log (w : World) (e : Errno) : (w.setErrno e).log = w.log := rfl
@[simp] theorem setErrno_nextIno (w : World) (e : Errno) : (w.setErrno e).nextIno = w.nextIno := rfl
@[simp] theorem setErrno_tick (w : World) (e : Errno) : (w.setErrno e).tick = w.tick := rfl
@[simp] theorem setData_names (w : World) (i : Nat) (d : List Nat) : (w.setData i d).names = w.names := rfl
@[simp] theorem setData_fds (w : World) (i : Nat) (d : List Nat) : (w.setData i d).fds = w.fds := rfl
@[simp] theorem setData_answers (w : World) (i : Nat) (d : List Nat) : (w.setData i d).answers = w.answers := rfl
@[simp] theorem setData_errno (w : World) (i : Nat) (d : List Nat) : (w.setData i d).errno = w.errno := rfl
@[simp] theorem setData_log (w : World) (i : Nat) (d : List Nat) : (w.setData i d).log = w.log := rfl
@[simp] theorem setData_nextIno (w : World) (i : Nat) (d : List Nat) : (w.setData i d).nextIno = w.nextIno := rfl
@[simp] theorem setData_tick (w : World) (i : Nat) (d : List Nat) : (w.setData i d).tick = w.tick := rfl

theorem setData_data_same (w : World) (i : Nat) (d : List Nat) :
    ((w.setData i d).inodes i).data = d := by
  simp [World.setData, setNode]

theorem setData_kind (w : World) (i j : Nat) (d : List Nat) :
    ((w.setData i d).inodes j).kind = (w.inodes j).kind := by
  unfold World.setData setNode
  by_cases h : j = i <;> simp [h]

theorem setData_inodes_other (w : World) (i j : Nat) (d : List Nat) (h : j ≠ i) :
    (w.setData i d).inodes j = w.inodes j := by
  simp [World.setData, setNode, h]

theorem fdIno_congr (w w1 : World) (fd : Int) (h : w1.fds = w.fds) : fdIno w1 fd = fdIno w fd := by
  unfold fdIno; rw [h]

/-- One chunk under a good kernel answer. -/
theorem secure_copy_chunk_good (w0 w : World) (fs fd : Int) (iS iD m n : Nat)
    (hs : fdIno w fs = some iS) (hd : fdIno w fd = some iD) (hne : iS ≠ iD)
    (hinv : CopyInv w0 w iS iD m)
    (hgood : goodAnswer (w.answers w.tick))
    (hm : m < (w0.inodes iS).data.length) (hn : 1 ≤ n) :
    ∃ (k : Nat) (w1 : World),
      secure_copy_chunk w fs m fd m n = ((k : Int), ((m + k : Nat) : Int), ((m + k : Nat) : Int), w1) ∧
      1 ≤ k ∧ k ≤ n ∧ m + k ≤ (w0.inodes iS).data.length ∧
      fdIno w1 fs = some iS ∧ fdIno w1 fd = some iD ∧
      CopyInv w0 w1 iS iD (m + k) := by
  have hs1 : fdIno { w with tick := w.tick + 1 } fs = some iS := hs
  have hd1 : fdIno { w with tick := w.tick + 1 } fd = some iD := hd
  have hm0 : ¬ ((m : Int) < 0) := by omega
  rcases hgood with ⟨hnone, hmax⟩ | ⟨e, he, hfb, hr, hwr⟩
  · have hj : 1 ≤ min (w.answers w.tick).cfr_max n := by omega
    obtain ⟨k1, k2, k3⟩ := take_drop_length_pos (w0.inodes iS).data m _ hm hj
    have heq : secure_copy_chunk w fs m fd m n =
        ((((((w0.inodes iS).data.drop m).take (min (w.answers w.tick).cfr_max n)).length : Nat) : Int),
         ((m + (((w0.inodes iS).data.drop m).take (min (w.answers w.tick).cfr_max n)).length : Nat) : Int),
         ((m + (((w0.inodes iS).data.drop m).take (min (w.answers w.tick).cfr_max n)).length : Nat) : Int),
         World.setData { w with tick := w.tick + 1 } iD
           (writeAt (w.inodes iD).data m
             (((w0.inodes iS).data.drop m).take (min (w.answers w.tick).cfr_max n)))) := by
      unfold secure_copy_chunk sys_copy_file_range
      simp only [hs1, hd1, hnone, readAt, Int.toNat_ofNat, hm0, or_self, if_false]
      have : ((w.inodes iS).data) = (w0.inodes iS).data := hinv.src
      simp [this]
    refine ⟨_, _, heq, k1, by omega, k3, ?_, ?_, ?_⟩
    · rw [← hs]; exact fdIno_congr _ _ _ rfl
    · rw [← hd]; exact fdIno_congr _ _ _ rfl
    · constructor
      · exact hinv.names
      · exact hinv.fds
      · exact hinv.answers
      · rw [setData_inodes_other _ _ _ _ hne]; exact hinv.src
      · rw [setData_data_same, hinv.dst, writeAt_extend _ _ _ (le_of_lt hm)]
  · have hj : 1 ≤ min (w.answers w.tick).pwrite_ret.toNat
        (min (w.answers w.tick).pread_ret.toNat n) := by omega
    obtain ⟨k1, k2, k3⟩ := take_drop_length_pos (w0.inodes iS).data m _ hm hj
    have hR : 1 ≤ min (w.answers w.tick).pread_ret.toNat n := by omega
    obtain ⟨r1, -, -⟩ := take_drop_length_pos (w0.inodes iS).data m _ hm hR
    have hsrc : ((w.inodes iS).data) = (w0.inodes iS).data := hinv.src
    have hs2 : fdIno (World.setErrno { w with tick := w.tick + 1 } e) fs = some iS := hs
    have hd2 : fdIno (World.setErrno { w with tick := w.tick + 1 } e) fd = some iD := hd
    have hr0 : ¬ ((w.answers w.tick).pread_ret < 0) := by omega
    have hw0 : ¬ ((w.answers w.tick).pwrite_ret < 0) := by omega
    have heq : secure_copy_chunk w fs m fd m n =
        ((((((w0.inodes iS).data.drop m).take (min (w.answers w.tick).pwrite_ret.toNat
            (min (w.answers w.tick).pread_ret.toNat n))).length : Nat) : Int),
         ((m + (((w0.inodes iS).data.drop m).take (min (w.answers w.tick).pwrite_ret.toNat
            (min (w.answers w.tick).pread_ret.toNat n))).length : Nat) : Int),
         ((m + (((w0.inodes iS).data.drop m).take (min (w.answers w.tick).pwrite_ret.toNat
            (min (w.answers w.tick).pread_ret.toNat n))).length : Nat) : Int),
         World.setData (World.setErrno { w with tick := w.tick + 1 } e) iD
           (writeAt (w.inodes iD).data m
             (((w0.inodes iS).data.drop m).take (min (w.answers w.tick).pwrite_ret.toNat
            (min (w.answers w.tick).pread_ret.toNat n))))) := by
      unfold secure_copy_chunk sys_copy_file_range
      simp only [hs1, hd1, he, hm0, or_self, if_false]
      have hneg : ¬ ((-1 : Int) ≥ 0) := by omega
      simp only [hneg, if_false, setErrno_errno, hfb, if_true]
      unfold sys_pread
      simp only [hs2, hm0, hr0, if_false, readAt, Int.toNat_ofNat, setErrno_inodes, hsrc]
      have hpos : ¬ (Int.ofNat (((w0.inodes iS).data.drop m).take
          (min (w.answers w.tick).pread_ret.toNat n)).length ≤ 0) := by
        simp only [Int.ofNat_eq_coe]; omega
      simp only [hpos, if_false]
      unfold sys_pwrite
      simp only [hd2, hm0, hw0, if_false, Int.toNat_ofNat, setErrno_inodes, List.take_take]
      have hpos2 : (((((w0.inodes iS).data.drop m).take
          (min (w.answers w.tick).pwrite_ret.toNat
            (min (w.answers w.tick).pread_ret.toNat n))).length : Nat) : Int) > 0 := by
        omega
      simp only [Int.ofNat_eq_coe, Nat.cast_add]
      rw [if_pos hpos2]
    refine ⟨_, _, heq, k1, by omega, k3, ?_, ?_, ?_⟩
    · rw [← hs]; exact fdIno_congr _ _ _ rfl
    · rw [← hd]; exact fdIno_congr _ _ _ rfl
    · constructor
      · exact hinv.names
      · exact hinv.fds
      · exact hinv.answers
      · rw [setData_inodes_other _ _ _ _ hne]; exact hinv.src
      · rw [setData_data_same, hinv.dst, writeAt_extend _ _ _ (le_of_lt hm)]

theorem chunkSize_bounds (B tot wr : Nat) (hB : 0 < B) (h : wr < tot) :
    1 ≤ chunkSize B (tot : Int) (wr : Int) ∧ chunkSize B (tot : Int) (wr : Int) ≤ tot - wr := by
  unfold chunkSize
  have : ((tot : Int) - (wr : Int)).toNat = tot - wr := by omega
  rw [this]
  split <;> omega

/-- The loop of copy_full under good kernel answers. -/
theorem copy_full_loop_good (B : Nat) (hB : 0 < B) (w0 : World) (fs fd : Int) (iS iD : Nat)
    (hne : iS ≠ iD) (hans : ∀ t, goodAnswer (w0.answers t)) :
    ∀ (fuel m : Nat) (w : World), fdIno w fs = some iS → fdIno w fd = some iD →
      CopyInv w0 w iS iD m → m ≤ (w0.inodes iS).data.length →
      (w0.inodes iS).data.length - m < fuel →
      ∃ w1, copy_full_loop B fs fd ((w0.inodes iS).data.length : Nat) fuel w m m m
          = (some ErrorCode.ERR_OK, w1) ∧
        CopyInv w0 w1 iS iD (w0.inodes iS).data.length ∧
        fdIno w1 fs = some iS ∧ fdIno w1 fd = some iD := by
  intro fuel
  induction fuel with
  | zero => intro m w _ _ _ _ h; omega
  | succ fuel ih =>
    intro m w hs hd hinv hm hfuel
    unfold copy_full_loop
    by_cases hlt : m < (w0.inodes iS).data.length
    · have hlt' : (m : Int) < (((w0.inodes iS).data.length : Nat) : Int) := by omega
      rw [if_pos hlt']
      obtain ⟨c1, c2⟩ := chunkSize_bounds B _ m hB hlt
      have hg : goodAnswer (w.answers w.tick) := by rw [hinv.answers]; exact hans _
      obtain ⟨k, w1, heq, k1, k2, k3, hs1, hd1, hinv1⟩ :=
        secure_copy_chunk_good w0 w fs fd iS iD m _ hs hd hne hinv hg hlt c1
      have hk0 : ¬ ((k : Int) < 0) := by omega
      simp only [heq, hk0, if_false]
      have hcast : (m : Int) + (k : Int) = ((m + k : Nat) : Int) := by push_cast; ring
      rw [hcast]
      exact ih (m + k) w1 hs1 hd1 hinv1 k3 (by omega)
    · have hme : m = (w0.inodes iS).data.length := by omega
      have hlt' : ¬ ((m : Int) < (((w0.inodes iS).data.length : Nat) : Int)) := by omega
      rw [if_neg hlt']
      exact ⟨w, rfl, by rw [← hme]; exact hinv, hs, hd⟩

/-- The inner loop of copy_part for one part under good kernel answers. -/
theorem copy_part_loop_good (B : Nat) (hB : 0 < B) (w0 : World) (fs fd : Int) (iS iD : Nat)
    (hne : iS ≠ iD) (hans : ∀ t, goodAnswer (w0.answers t)) (base tot : Nat)
    (hbt : base + tot ≤ (w0.inodes iS).data.length) :
    ∀ (fuel pw : Nat) (w : World), fdIno w fs = some iS → fdIno w fd = some iD →
      CopyInv w0 w iS iD (base + pw) → pw ≤ tot → tot - pw < fuel →
      ∃ w1, copy_part_loop B fs fd (tot : Nat) fuel w pw ((base + pw : Nat) : Int)
          ((base + pw : Nat) : Int) = (none, w1) ∧
        CopyInv w0 w1 iS iD (base + tot) ∧
        fdIno w1 fs = some iS ∧ fdIno w1 fd = some iD := by
  intro fuel
  induction fuel with
  | zero => intro pw w _ _ _ _ h; omega
  | succ fuel ih =>
    intro pw w hs hd hinv hpw hfuel
    unfold copy_part_loop
    by_cases hlt : pw < tot
    · have hlt' : (pw : Int) < ((tot : Nat) : Int) := by omega
      rw [if_pos hlt']
      obtain ⟨c1, c2⟩ := chunkSize_bounds B _ pw hB hlt
      have hg : goodAnswer (w.answers w.tick) := by rw [hinv.answers]; exact hans _
      obtain ⟨k, w1, heq, k1, k2, k3, hs1, hd1, hinv1⟩ :=
        secure_copy_chunk_good w0 w fs fd iS iD (base + pw) _ hs hd hne hinv hg (by omega) c1
      have hk0 : ¬ ((k : Int) < 0) := by omega
      simp only [heq, hk0, if_false]
      have hcast : (pw : Int) + (k : Int) = ((pw + k : Nat) : Int) := by push_cast; ring
      have hassoc : base + pw + k = base + (pw + k) := by omega
      rw [hcast, hassoc]
      rw [hassoc] at hinv1
      exact ih (pw + k) w1 hs1 hd1 hinv1 (by omega) (by omega)
    · have hme : pw = tot := by omega
      have hlt' : ¬ ((pw : Int) < ((tot : Nat) : Int)) := by omega
      rw [if_neg hlt']
      exact ⟨w, rfl, by rw [← hme]; exact hinv, hs, hd⟩

theorem wrapInt32_small (x : Int) (h1 : -2147483648 ≤ x) (h2 : x < 2147483648) :
    wrapInt32 x = x := by
  unfold wrapInt32; omega

/-- The loop over the parts under good kernel answers. -/
theorem copy_part_parts_good (B : Nat) (hB : 0 < B) (w0 : World) (fs fd : Int) (iS iD : Nat)
    (hne : iS ≠ iD) (hans : ∀ t, goodAnswer (w0.answers t))
    (si : file_info) (N P L inner : Nat)
    (hN : si.num_parts = N) (hP : si.part_size = P) (hL : si.last_part_size = L)
    (hN1 : 1 ≤ N) (hNmax : N < 2147483647)
    (hsum : P * (N - 1) + L = (w0.inodes iS).data.length)
    (hinner : (w0.inodes iS).data.length < inner) :
    ∀ (fuel i : Nat) (w : World), fdIno w fs = some iS → fdIno w fd = some iD →
      1 ≤ i → i ≤ N + 1 →
      CopyInv w0 w iS iD (if i ≤ N then (i - 1) * P else (w0.inodes iS).data.length) →
      N + 1 - i < fuel →
      ∃ w1, copy_part_parts B fs fd si inner fuel w i = (some ErrorCode.ERR_OK, w1) ∧
        CopyInv w0 w1 iS iD (w0.inodes iS).data.length ∧
        fdIno w1 fs = some iS ∧ fdIno w1 fd = some iD := by
  intro fuel
  induction fuel with
  | zero => intro i w _ _ _ _ _ h; omega
  | succ fuel ih =>
    intro i w hs hd hi1 hiN hinv hfuel
    unfold copy_part_parts
    rw [hN, hP, hL]
    by_cases hle : i ≤ N
    · have hle' : (i : Int) ≤ (N : Int) := by omega
      rw [if_pos hle']
      rw [if_pos hle] at hinv
      have hstart : partStart (P : Int) (i : Int) = (((i - 1) * P : Nat) : Int) := by
        unfold partStart
        have : ((i - 1 : Nat) : Int) = (i : Int) - 1 := by omega
        push_cast [this]; ring
      have hmul : (i - 1) * P ≤ P * (N - 1) := by
        rw [mul_comm]; exact Nat.mul_le_mul_left P (by omega)
      by_cases hlast : i = N
      · -- the last part
        have hlen : partLen (N : Int) (P : Int) (L : Int) (i : Int) = (L : Int) := by
          unfold partLen; rw [if_pos (by omega)]
        simp only [hstart, hlen]
        have hbt : (i - 1) * P + L ≤ (w0.inodes iS).data.length := by
          rw [hlast, mul_comm]; omega
        have hinv0 : CopyInv w0 w iS iD ((i - 1) * P + 0) := by simpa using hinv
        obtain ⟨w1, heq, hinv1, hs1, hd1⟩ :=
          copy_part_loop_good B hB w0 fs fd iS iD hne hans ((i - 1) * P) L hbt inner 0 w hs hd
            hinv0 (by omega) (by omega)
        simp only [Nat.add_zero, Nat.cast_zero] at heq
        rw [heq]
        simp only
        rw [wrapInt32_small _ (by omega) (by omega)]
        have hcast : (i : Int) + 1 = ((i + 1 : Nat) : Int) := by push_cast; ring
        rw [hcast]
        apply ih (i + 1) w1 hs1 hd1 (by omega) (by omega) _ (by omega)
        rw [if_neg (by omega)]
        have : (i - 1) * P + L = (w0.inodes iS).data.length := by
          rw [hlast, mul_comm]; exact hsum
        rw [← this]; exact hinv1
      · have hlen : partLen (N : Int) (P : Int) (L : Int) (i : Int) = (P : Int) := by
          unfold partLen; rw [if_neg (by omega)]
        simp only [hstart, hlen]
        have hip : (i - 1) * P + P = (i + 1 - 1) * P := by
          have : i + 1 - 1 = (i - 1) + 1 := by omega
          rw [this, Nat.add_mul, Nat.one_mul]
        have hbt : (i - 1) * P + P ≤ (w0.inodes iS).data.length := by
          rw [hip]
          have : (i + 1 - 1) * P ≤ P * (N - 1) := by
            rw [mul_comm]; exact Nat.mul_le_mul_left P (by omega)
          omega
        have hinv0 : CopyInv w0 w iS iD ((i - 1) * P + 0) := by simpa using hinv
        obtain ⟨w1, heq, hinv1, hs1, hd1⟩ :=
          copy_part_loop_good B hB w0 fs fd iS iD hne hans ((i - 1) * P) P hbt inner 0 w hs hd
            hinv0 (by omega) (by omega)
        simp only [Nat.add_zero, Nat.cast_zero] at heq
        rw [heq]
        simp only
        rw [wrapInt32_small _ (by omega) (by omega)]
        have hcast : (i : Int) + 1 = ((i + 1 : Nat) : Int) := by push_cast; ring
        rw [hcast]
        apply ih (i + 1) w1 hs1 hd1 (by omega) (by omega) _ (by omega)
        rw [if_pos (by omega), ← hip]
        exact hinv1
    · have hle' : ¬ ((i : Int) ≤ (N : Int)) := by omega
      rw [if_neg hle']
      rw [if_neg hle] at hinv
      exact ⟨w, rfl, hinv, hs, hd⟩

theorem pathIno_congr (w w1 : World) (p : CStr) (h : w1.names = w.names) :
    pathIno w1 p = pathIno w p := by
  unfold pathIno lookupIno; rw [h]

theorem fileContent_congr (w w1 : World) (p : CStr) (h : w1.names = w.names)
    (hi : w1.inodes = w.inodes) : fileContent w1 p = fileContent w p := by
  unfold fileContent; rw [pathIno_congr w w1 p h, hi]

theorem sys_close_names (w : World) (fd : Int) : (sys_close w fd).names = w.names := by
  unfold sys_close; split <;> rfl

theorem sys_close_inodes (w : World) (fd : Int) : (sys_close w fd).inodes = w.inodes := by
  unfold sys_close; split <;> rfl

theorem sys_open_directory_names (w : World) (p : CStr) :
    (sys_open_directory w p).2.names = w.names := by
  unfold sys_open_directory allocFd
  split
  · rfl
  · split <;> rfl

theorem sys_open_directory_inodes (w : World) (p : CStr) :
    (sys_open_directory w p).2.inodes = w.inodes := by
  unfold sys_open_directory allocFd
  split
  · rfl
  · split <;> rfl

theorem fsyncBlock_names (PM : Nat) (w : World) (p : CStr) :
    (fsyncBlock PM w p).names = w.names := by
  unfold fsyncBlock
  simp only [sys_close_names, sys_open_directory_names]

theorem fsyncBlock_inodes (PM : Nat) (w : World) (p : CStr) :
    (fsyncBlock PM w p).inodes = w.inodes := by
  unfold fsyncBlock
  simp only [sys_close_inodes, sys_open_directory_inodes]

theorem freshFd_gt (fds : List (Nat × Nat)) : ∀ p ∈ fds, p.1 < freshFd fds := by
  unfold freshFd
  induction fds with
  | nil => intro p hp; simp at hp
  | cons a t ih =>
    intro p hp
    simp only [List.map_cons, List.foldr_cons]
    rcases List.mem_cons.mp hp with h | h
    · subst h; omega
    · have := ih p h; omega

theorem get_file_info_file_name (w : World) (p : CStr) (n : Int) :
    (get_file_info w p n).file_name = p := by
  unfold get_file_info; split <;> rfl

theorem lookup_mem (l : List (List CStr × Nat)) (k : List CStr) (v : Nat)
    (h : l.lookup k = some v) : (k, v) ∈ l := by
  induction l with
  | nil => simp at h
  | cons a t ih =>
    obtain ⟨a1, a2⟩ := a
    rw [List.lookup_cons] at h
    by_cases hk : k = a1
    · subst hk
      simp at h
      subst h
      exact List.mem_cons_self _ _
    · have : (k == a1) = false := by simpa using hk
      rw [this] at h
      exact List.mem_cons_of_mem _ (ih h)

theorem lookup_cons_ne (l : List (List CStr × Nat)) (k a : List CStr) (v : Nat) (h : k ≠ a) :
    ((a, v) :: l).lookup k = l.lookup k := by
  rw [List.lookup_cons]
  have : (k == a) = false := by simpa using h
  rw [this]

theorem lookupIno_lt (w : World) (hwf : w.wellFormed) (c : List CStr) (i : Nat)
    (h : lookupIno w c = some i) : i < w.nextIno := by
  unfold lookupIno at h
  split at h
  · have : i = 0 := by simpa using h.symm
    rw [this]; exact hwf.1
  · exact hwf.2 _ (lookup_mem _ _ _ h)

/-- Opening the destination for writing next to an existing source. -/
theorem sys_open_creat_trunc_ok (w : World) (src dst : CStr) (perm iS : Nat)
    (hwf : w.wellFormed) (hsrc : pathIno w src = some iS) (hdst : dstWritable w dst)
    (hne : pathIno w dst ≠ some iS) :
    ∃ (iD : Nat) (w2 : World),
      sys_open_creat_trunc w dst perm = (((freshFd w.fds : Nat) : Int), w2) ∧ iS ≠ iD ∧
      w2.fds = (freshFd w.fds, iD) :: w.fds ∧
      pathIno w2 src = some iS ∧ pathIno w2 dst = some iD ∧
      (w2.inodes iS).data = (w.inodes iS).data ∧ (w2.inodes iD).data = [] ∧
      w2.answers = w.answers := by
  rcases hdst with ⟨iD, hD, hkind⟩ | ⟨hnone, comps, p, hres, hpar, hpk⟩
  · have hne' : iS ≠ iD := by
      intro h; apply hne; rw [hD, h]
    refine ⟨iD, (allocFd (w.setData iD []) iD).2, ?_, hne', rfl, ?_, ?_, ?_, ?_, rfl⟩
    · unfold sys_open_creat_trunc
      unfold pathIno at hD
      cases hr : resolvePath dst with
      | none => simp [hr] at hD
      | some comps =>
        simp only [hr] at hD
        simp only [hD, hkind]
        rfl
    · rw [← hsrc]; exact pathIno_congr _ _ _ rfl
    · rw [← hD]; exact pathIno_congr _ _ _ rfl
    · show ((w.setData iD []).inodes iS).data = _
      rw [setData_inodes_other _ _ _ _ hne']
    · show ((w.setData iD []).inodes iD).data = _
      rw [setData_data_same]
  · have hSlt : iS < w.nextIno := by
      unfold pathIno at hsrc
      cases hr : resolvePath src with
      | none => simp [hr] at hsrc
      | some sc =>
        simp only [hr] at hsrc
        exact lookupIno_lt w hwf sc iS hsrc
    have hne' : iS ≠ w.nextIno := by omega
    have hlk : lookupIno w comps = none := by
      unfold pathIno at hnone; simpa [hres] using hnone
    have hc : comps ≠ [] := by
      intro h; rw [h] at hlk; simp [lookupIno] at hlk
    refine ⟨w.nextIno, (sys_open_creat_trunc w dst perm).2, ?_, hne', ?_, ?_, ?_, ?_, ?_, ?_⟩
    · unfold sys_open_creat_trunc
      simp only [hres, hlk, hpar, hpk]
      rfl
    · unfold sys_open_creat_trunc
      simp only [hres, hlk, hpar, hpk]
      rfl
    · unfold sys_open_creat_trunc
      simp only [hres, hlk, hpar, hpk]
      unfold pathIno at hsrc ⊢
      cases hr : resolvePath src with
      | none => simp [hr] at hsrc
      | some sc =>
        simp only [hr] at hsrc ⊢
        unfold lookupIno at hsrc ⊢
        by_cases hsc : sc = []
        · simp only [hsc, if_true] at hsrc ⊢; exact hsrc
        · simp only [hsc, if_false] at hsrc ⊢
          have hdiff : sc ≠ comps := by
            intro h
            rw [h] at hsrc
            unfold lookupIno at hlk
            simp only [hc, if_false] at hlk
            rw [hlk] at hsrc
            exact Option.noConfusion hsrc
          simp only [allocFd]
          rw [lookup_cons_ne _ _ _ _ hdiff]
          exact hsrc
    · unfold sys_open_creat_trunc
      simp only [hres, hlk, hpar, hpk]
      unfold pathIno lookupIno
      simp only [hres, hc, if_false, allocFd, List.lookup_cons_self]
    · unfold sys_open_creat_trunc
      simp only [hres, hlk, hpar, hpk, allocFd]
      rw [setNode_other _ _ _ _ hne']
    · unfold sys_open_creat_trunc
      simp only [hres, hlk, hpar, hpk, allocFd]
      rw [setNode_same]
    · unfold sys_open_creat_trunc
      simp only [hres, hlk, hpar, hpk]
      rfl

theorem fdIno_head (w : World) (fd ino : Nat) (rest : List (Nat × Nat))
    (h : w.fds = (fd, ino) :: rest) : fdIno w (fd : Int) = some ino := by
  unfold fdIno
  rw [h]
  simp

theorem fdIno_second (w : World) (fd fd2 ino ino2 : Nat) (rest : List (Nat × Nat))
    (h : w.fds = (fd2, ino2) :: (fd, ino) :: rest) (hne : fd ≠ fd2) :
    fdIno w (fd : Int) = some ino := by
  unfold fdIno
  rw [h]
  have : (fd == fd2) = false := by simpa using hne
  simp [List.lookup_cons, this]

/-- What `copy` does once both files are open and all kernel answers are good. -/
theorem copy_drivers_good (B fuel : Nat) (hB : 0 < B) (w2 : World) (fs fd : Int) (iS iD : Nat)
    (src : CStr) (num_parts : Int)
    (hne : iS ≠ iD) (hans : ∀ t, goodAnswer (w2.answers t))
    (hs : fdIno w2 fs = some iS) (hd : fdIno w2 fd = some iD)
    (hsrc : pathIno w2 src = some iS) (hempty : (w2.inodes iD).data = [])
    (h1 : 1 ≤ num_parts) (hmax : num_parts < 2147483647)
    (hfuel : ((w2.inodes iS).data.length : Int) + num_parts < fuel) :
    (num_parts = 1 →
      ∃ w3, copy_full B fuel w2 fs fd (get_file_info w2 src num_parts)
          = (some ErrorCode.ERR_OK, w3) ∧
        CopyInv w2 w3 iS iD (w2.inodes iS).data.length) ∧
    (num_parts > 1 →
      ∃ w3, copy_part B fuel w2 fs fd (get_file_info w2 src num_parts)
          = (some ErrorCode.ERR_OK, w3) ∧
        CopyInv w2 w3 iS iD (w2.inodes iS).data.length) := by
  have hinv0 : CopyInv w2 w2 iS iD 0 := ⟨rfl, rfl, rfl, rfl, by rw [hempty]; simp⟩
  have hsize : (get_file_info w2 src num_parts).file_size
      = (((w2.inodes iS).data.length : Nat) : Int) := by
    unfold get_file_info; simp only [hsrc]; rfl
  constructor
  · intro _
    obtain ⟨w3, heq, hinv, -, -⟩ :=
      copy_full_loop_good B hB w2 fs fd iS iD hne hans fuel 0 w2 hs hd hinv0 (by omega) (by omega)
    refine ⟨w3, ?_, hinv⟩
    unfold copy_full
    rw [hsize]
    simpa using heq
  · intro hgt
    have hlen0 : (0 : Int) ≤ (((w2.inodes iS).data.length : Nat) : Int) := by omega
    have hps := partSizeOf_nonneg _ num_parts hlen0 h1
    have hls := partSizeOf_le_last _ num_parts hlen0 h1
    have hnp : (get_file_info w2 src num_parts).num_parts = ((num_parts.toNat : Nat) : Int) := by
      unfold get_file_info; simp only [hsrc]
      show num_parts = _
      omega
    have hpp : (get_file_info w2 src num_parts).part_size
        = (((partSizeOf (((w2.inodes iS).data.length : Nat) : Int) num_parts).toNat : Nat) : Int) := by
      unfold get_file_info; simp only [hsrc]
      show partSizeOf _ num_parts = _
      simp only [Int.ofNat_eq_coe]
      omega
    have hlp : (get_file_info w2 src num_parts).last_part_size
        = (((lastPartSizeOf (((w2.inodes iS).data.length : Nat) : Int) num_parts).toNat : Nat) : Int) := by
      unfold get_file_info; simp only [hsrc]
      show lastPartSizeOf _ num_parts = _
      simp only [Int.ofNat_eq_coe]
      omega
    have hsum : (partSizeOf (((w2.inodes iS).data.length : Nat) : Int) num_parts).toNat
          * (num_parts.toNat - 1)
        + (lastPartSizeOf (((w2.inodes iS).data.length : Nat) : Int) num_parts).toNat
        = (w2.inodes iS).data.length := by
      have e1 : partSizeOf (((w2.inodes iS).data.length : Nat) : Int) num_parts * (num_parts - 1)
          + lastPartSizeOf (((w2.inodes iS).data.length : Nat) : Int) num_parts
          = (((w2.inodes iS).data.length : Nat) : Int) := by
        unfold lastPartSizeOf; ring
      have c1 : (((partSizeOf (((w2.inodes iS).data.length : Nat) : Int) num_parts).toNat : Nat) : Int)
          = partSizeOf (((w2.inodes iS).data.length : Nat) : Int) num_parts := by omega
      have c2 : (((lastPartSizeOf (((w2.inodes iS).data.length : Nat) : Int) num_parts).toNat : Nat) : Int)
          = lastPartSizeOf (((w2.inodes iS).data.length : Nat) : Int) num_parts := by omega
      have c3 : (((num_parts.toNat - 1 : Nat)) : Int) = num_parts - 1 := by omega
      have : (((partSizeOf (((w2.inodes iS).data.length : Nat) : Int) num_parts).toNat
          * (num_parts.toNat - 1)
        + (lastPartSizeOf (((w2.inodes iS).data.length : Nat) : Int) num_parts).toNat : Nat) : Int)
        = (((w2.inodes iS).data.length : Nat) : Int) := by
        rw [Nat.cast_add, Nat.cast_mul, c1, c2, c3]; exact e1
      exact_mod_cast this
    have hinv1 : CopyInv w2 w2 iS iD
        (if 1 ≤ num_parts.toNat then (1 - 1) *
          (partSizeOf (((w2.inodes iS).data.length : Nat) : Int) num_parts).toNat
          else (w2.inodes iS).data.length) := by
      rw [if_pos (by omega)]; simpa using hinv0
    obtain ⟨w3, heq, hinv, -, -⟩ :=
      copy_part_parts_good B hB w2 fs fd iS iD hne hans (get_file_info w2 src num_parts)
        num_parts.toNat _ _ fuel hnp hpp hlp (by omega) (by omega) hsum (by omega)
        fuel 1 w2 hs hd (le_refl _) (by omega) hinv1 (by omega)
    refine ⟨w3, ?_, hinv⟩
    unfold copy_part
    simpa using heq

theorem finish_content (PM : Nat) (w2 w3 : World) (fs fd : Int) (iS iD : Nat) (b : Bool)
    (p src dst : CStr)
    (hinv : CopyInv w2 w3 iS iD (w2.inodes iS).data.length)
    (hsrc : pathIno w2 src = some iS) (hdst : pathIno w2 dst = some iD) :
    fileContent (sys_close (sys_close (if b = true then fsyncBlock PM w3 p else w3) fs) fd) dst
        = some (w2.inodes iS).data ∧
    fileContent (sys_close (sys_close (if b = true then fsyncBlock PM w3 p else w3) fs) fd) src
        = some (w2.inodes iS).data := by
  have hn : (sys_close (sys_close (if b = true then fsyncBlock PM w3 p else w3) fs) fd).names
      = w2.names := by
    rw [sys_close_names, sys_close_names]
    cases b
    · simpa using hinv.names
    · simpa [fsyncBlock_names] using hinv.names
  have hi : (sys_close (sys_close (if b = true then fsyncBlock PM w3 p else w3) fs) fd).inodes
      = w3.inodes := by
    rw [sys_close_inodes, sys_close_inodes]
    cases b
    · simp
    · simp [fsyncBlock_inodes]
  unfold fileContent
  rw [pathIno_congr _ _ _ hn, pathIno_congr _ _ _ hn, hsrc, hdst, hi]
  simp only [Option.map_some']
  rw [hinv.dst, hinv.src, List.take_length]
  exact ⟨rfl, rfl⟩

theorem partStart_mono (ps i j : Int) (hps : 0 ≤ ps) (hij : i ≤ j) :
    partStart ps i ≤ partStart ps j := by
  unfold partStart
  exact mul_le_mul_of_nonneg_right (by omega) hps

theorem inPart_disjoint_aux (size n i j x : Int) (hs : 0 ≤ size) (hn : 1 ≤ n)
    (hjn : j ≤ n) (hij : i < j)
    (hi : inPart size n i x) (hj : inPart size n j x) : False := by
  have hps := partSizeOf_nonneg size n hs hn
  unfold inPart at hi hj
  have hne : i ≠ n := by omega
  have h1 : partLen n (partSizeOf size n) (lastPartSizeOf size n) i = partSizeOf size n := by
    simp [partLen, hne]
  rw [h1] at hi
  have h2 : partStart (partSizeOf size n) (i + 1) ≤ partStart (partSizeOf size n) j :=
    partStart_mono _ _ _ hps (by omega)
  have h3 : partStart (partSizeOf size n) (i + 1)
      = partStart (partSizeOf size n) i + partSizeOf size n := by
    unfold partStart; ring
  omega

/-- C8 (partition bookkeeping).  For size ≥ 0 and num_parts ≥ 1 the part size
is floor(size / num_parts), part_size * (num_parts - 1) + last_part_size = size,
last_part_size ≥ part_size, and the ranges copy_part assigns to the parts
1..num_parts (start (i - 1) * part_size, length part_size, or last_part_size for
the last part) cover exactly the offsets 0 ≤ x < size and no offset lies in two
of them. -/
theorem partition_bookkeeping (size num_parts : Int) (hs : 0 ≤ size) (hn : 1 ≤ num_parts) :
    partSizeOf size num_parts = size / num_parts ∧
    partSizeOf size num_parts * (num_parts - 1) + lastPartSizeOf size num_parts = size ∧
    partSizeOf size num_parts ≤ lastPartSizeOf size num_parts ∧
    (∀ x : Int, (0 ≤ x ∧ x < size) ↔
      ∃ i : Int, 1 ≤ i ∧ i ≤ num_parts ∧ inPart size num_parts i x) ∧
    (∀ i j x : Int, 1 ≤ i → i ≤ num_parts → 1 ≤ j → j ≤ num_parts →
      inPart size num_parts i x → inPart size num_parts j x → i = j) := by
  have hps := partSizeOf_nonneg size num_parts hs hn
  have hle := partSizeOf_mul_le size num_parts hs hn
  have hsum : partSizeOf size num_parts * (num_parts - 1) + lastPartSizeOf size num_parts = size := by
    unfold lastPartSizeOf; ring
  have hlast : partSizeOf size num_parts ≤ lastPartSizeOf size num_parts := by
    have : partSizeOf size num_parts * num_parts
        = partSizeOf size num_parts * (num_parts - 1) + partSizeOf size num_parts := by ring
    omega
  refine ⟨partSizeOf_eq_ediv size num_parts hs hn, hsum, hlast, ?_, ?_⟩
  · intro x
    constructor
    · rintro ⟨hx0, hxs⟩
      by_cases hx : x < partSizeOf size num_parts * (num_parts - 1)
      · have hpos : 0 < partSizeOf size num_parts := by
          rcases eq_or_lt_of_le hps with h | h
          · rw [← h] at hx; simp at hx; omega
          · exact h
        have hq : x / partSizeOf size num_parts < num_parts - 1 :=
          Int.ediv_lt_of_lt_mul hpos (by rw [mul_comm]; exact hx)
        have hq0 : 0 ≤ x / partSizeOf size num_parts := Int.ediv_nonneg hx0 hps
        refine ⟨x / partSizeOf size num_parts + 1, by omega, by omega, ?_⟩
        unfold inPart
        have hne : x / partSizeOf size num_parts + 1 ≠ num_parts := by omega
        simp only [partLen, hne, if_false, partStart]
        have e1 := Int.ediv_mul_le x (ne_of_gt hpos)
        have e2 := Int.lt_ediv_add_one_mul_self x hpos
        constructor
        · have : (x / partSizeOf size num_parts + 1 - 1) * partSizeOf size num_parts
              = x / partSizeOf size num_parts * partSizeOf size num_parts := by ring
          omega
        · have : (x / partSizeOf size num_parts + 1 - 1) * partSizeOf size num_parts
              + partSizeOf size num_parts
              = (x / partSizeOf size num_parts + 1) * partSizeOf size num_parts := by ring
          omega
      · refine ⟨num_parts, hn, le_refl _, ?_⟩
        unfold inPart
        simp only [partLen, if_true, partStart]
        have : (num_parts - 1) * partSizeOf size num_parts
            = partSizeOf size num_parts * (num_parts - 1) := by ring
        constructor <;> omega
    · rintro ⟨i, hi1, hin, hi⟩
      unfold inPart at hi
      have h0 : partStart (partSizeOf size num_parts) 1 ≤ partStart (partSizeOf size num_parts) i :=
        partStart_mono _ _ _ hps hi1
      have h00 : partStart (partSizeOf size num_parts) 1 = 0 := by simp [partStart]
      refine ⟨by omega, ?_⟩
      by_cases hlasti : i = num_parts
      · subst hlasti
        simp only [partLen, if_true, partStart] at hi
        have : (i - 1) * partSizeOf size i = partSizeOf size i * (i - 1) := by ring
        omega
      · simp only [partLen, hlasti, if_false] at hi
        have h2 : partStart (partSizeOf size num_parts) (i + 1)
            ≤ partStart (partSizeOf size num_parts) num_parts :=
          partStart_mono _ _ _ hps (by omega)
        have h3 : partStart (partSizeOf size num_parts) (i + 1)
            = partStart (partSizeOf size num_parts) i + partSizeOf size num_parts := by
          unfold partStart; ring
        have h4 : partStart (partSizeOf size num_parts) num_parts
            = partSizeOf size num_parts * (num_parts - 1) := by
          unfold partStart; ring
        omega
  · intro i j x _ hin _ hjn hi hj
    rcases lt_trichotomy i j with h | h | h
    · exact (inPart_disjoint_aux size num_parts i j x hs hn hjn h hi hj).elim
    · exact h
    · exact (inPart_disjoint_aux size num_parts j i x hs hn hin h hj hi).elim

/-- Witness of `partition_bookkeeping`: ten bytes in three parts. -/
theorem partition_bookkeeping_witness :
    ((0 : Int) ≤ 10 ∧ (1 : Int) ≤ 3) ∧
    (partSizeOf 10 3 = 10 / 3 ∧
    partSizeOf 10 3 * (3 - 1) + lastPartSizeOf 10 3 = 10 ∧
    partSizeOf 10 3 ≤ lastPartSizeOf 10 3 ∧
    (∀ x : Int, (0 ≤ x ∧ x < 10) ↔ ∃ i : Int, 1 ≤ i ∧ i ≤ 3 ∧ inPart 10 3 i x) ∧
    (∀ i j x : Int, 1 ≤ i → i ≤ 3 → 1 ≤ j → j ≤ 3 →
      inPart 10 3 i x → inPart 10 3 j x → i = j)) :=
  ⟨⟨by decide, by decide⟩, partition_bookkeeping 10 3 (by decide) (by decide)⟩

theorem sampleAnswers_good : ∀ t, goodAnswer (sampleAnswers t) := by
  intro t
  unfold sampleAnswers goodAnswer
  by_cases h : t % 2 = 0
  · left; simp [h]
  · right; exact ⟨Errno.EXDEV, by simp [h], by decide, by simp [h], by simp [h]⟩

theorem sampleWorld_wellFormed : sampleWorld.wellFormed := by
  unfold World.wellFormed
  decide

theorem sys_close_tick (w : World) (fd : Int) : (sys_close w fd).tick = w.tick := by
  unfold sys_close; split <;> rfl

theorem sys_open_directory_tick (w : World) (p : CStr) :
    (sys_open_directory w p).2.tick = w.tick := by
  unfold sys_open_directory allocFd
  split
  · rfl
  · split <;> rfl

theorem fsyncBlock_tick (PM : Nat) (w : World) (p : CStr) :
    (fsyncBlock PM w p).tick = w.tick := by
  unfold fsyncBlock
  simp only [sys_close_tick, sys_open_directory_tick]

/-- With part sizes zero the loop over the parts makes no chunk call. -/
theorem copy_part_parts_empty (B : Nat) (fs fd : Int) (si : file_info) (N inner : Nat)
    (hN : si.num_parts = N) (hP : si.part_size = 0) (hL : si.last_part_size = 0)
    (hNmax : N < 2147483647) (hinner : 0 < inner) :
    ∀ (fuel i : Nat) (w : World), 1 ≤ i → i ≤ N + 1 → N + 1 - i < fuel →
      copy_part_parts B fs fd si inner fuel w i = (some ErrorCode.ERR_OK, w) := by
  intro fuel
  induction fuel with
  | zero => intro i w _ _ h; omega
  | succ fuel ih =>
    intro i w hi1 hiN hfuel
    unfold copy_part_parts
    rw [hN, hP, hL]
    by_cases hle : i ≤ N
    · have hle' : (i : Int) ≤ (N : Int) := by omega
      rw [if_pos hle']
      have hlen : partLen (N : Int) 0 0 (i : Int) = 0 := by
        unfold partLen; split <;> rfl
      have hloop : ∀ so dof : Int, copy_part_loop B fs fd 0 inner w 0 so dof = (none, w) := by
        intro so dof
        obtain ⟨j, hj⟩ : ∃ j, inner = j + 1 := ⟨inner - 1, by omega⟩
        rw [hj]
        unfold copy_part_loop
        simp
      simp only [hlen, hloop]
      rw [wrapInt32_small _ (by omega) (by omega)]
      have hcast : (i : Int) + 1 = ((i + 1 : Nat) : Int) := by push_cast; ring
      rw [hcast]
      exact ih (i + 1) w (by omega) (by omega) (by omega)
    · have hle' : ¬ ((i : Int) ≤ (N : Int)) := by omega
      rw [if_neg hle']

/-- Opening as destination the file that is already open as source truncates it. -/
theorem sys_open_creat_trunc_same (w : World) (src dst : CStr) (perm iS : Nat)
    (hsrc : pathIno w src = some iS) (hdst : pathIno w dst = some iS)
    (hreg : (w.inodes iS).kind = Kind.reg) :
    ∃ w2, sys_open_creat_trunc w dst perm = (((freshFd w.fds : Nat) : Int), w2) ∧
      pathIno w2 src = some iS ∧ pathIno w2 dst = some iS ∧
      (w2.inodes iS).data = [] ∧ w2.tick = w.tick := by
  refine ⟨(allocFd (w.setData iS []) iS).2, ?_, ?_, ?_, ?_, rfl⟩
  · unfold sys_open_creat_trunc
    unfold pathIno at hdst
    cases hr : resolvePath dst with
    | none => simp [hr] at hdst
    | some comps =>
      simp only [hr] at hdst
      simp only [hdst, hreg]
      rfl
  · rw [← hsrc]; exact pathIno_congr _ _ _ rfl
  · rw [← hdst]; exact pathIno_congr _ _ _ rfl
  · exact setData_data_same _ _ _

/-- On an empty source both drivers return ERR_OK without touching the world. -/
theorem copy_drivers_empty (B fuel : Nat) (w2 : World) (fs fd : Int) (iS : Nat)
    (src : CStr) (num_parts : Int)
    (hsrc : pathIno w2 src = some iS) (hempty : (w2.inodes iS).data = [])
    (h1 : 1 ≤ num_parts) (hmax : num_parts < 2147483647) (hfuel : num_parts < fuel) :
    copy_full B fuel w2 fs fd (get_file_info w2 src num_parts) = (some ErrorCode.ERR_OK, w2) ∧
    copy_part B fuel w2 fs fd (get_file_info w2 src num_parts) = (some ErrorCode.ERR_OK, w2) := by
  have hsize : (get_file_info w2 src num_parts).file_size = 0 := by
    unfold get_file_info; simp only [hsrc, hempty]; rfl
  have hps : (get_file_info w2 src num_parts).part_size = 0 := by
    unfold get_file_info; simp only [hsrc, hempty]
    simp [partSizeOf]
  have hls : (get_file_info w2 src num_parts).last_part_size = 0 := by
    unfold get_file_info; simp only [hsrc, hempty]
    simp [lastPartSizeOf, partSizeOf]
  have hnp : (get_file_info w2 src num_parts).num_parts = ((num_parts.toNat : Nat) : Int) := by
    unfold get_file_info; simp only [hsrc]
    show num_parts = _
    omega
  obtain ⟨j, hj⟩ : ∃ j, fuel = j + 1 := ⟨fuel - 1, by omega⟩
  constructor
  · unfold copy_full
    rw [hsize, hj]
    unfold copy_full_loop
    simp
  · unfold copy_part
    have := copy_part_parts_empty B fs fd _ num_parts.toNat fuel hnp hps hls
      (by omega) (by omega) fuel 1 w2 (le_refl _) (by omega) (by omega)
    simpa using this

/-- The closing steps of `copy` keep names, inodes and tick. -/
theorem finish_keeps (PM : Nat) (w2 : World) (fs fd : Int) (b : Bool) (p q : CStr) :
    fileContent (sys_close (sys_close (if b = true then fsyncBlock PM w2 p else w2) fs) fd) q
        = fileContent w2 q ∧
    (sys_close (sys_close (if b = true then fsyncBlock PM w2 p else w2) fs) fd).tick = w2.tick := by
  constructor
  · apply fileContent_congr
    · rw [sys_close_names, sys_close_names]
      cases b
      · simp
      · simp [fsyncBlock_names]
    · rw [sys_close_inodes, sys_close_inodes]
      cases b
      · simp
      · simp [fsyncBlock_inodes]
  · rw [sys_close_tick, sys_close_tick]
    cases b
    · rfl
    · simp only [if_true, fsyncBlock_tick]

/-- C10 (no self-copy guard in `copy`), amended with the bound
num_parts < INT_MAX.  When `src` and `dst` name the same regular file (inode
`iS`), `copy` truncates it when it opens the destination, reads its size (now 0)
afterwards, makes no chunk call (the tick of the kernel answers does not
advance), returns ERR_OK and leaves the file empty; for
1 ≤ num_parts < 2147483647 (the part counts the `int` counter of `copy_part` can
pass) and fuel above num_parts.  Without the bound on num_parts the statement
fails, as the counterexample at num_parts = 2147483647 shows. -/
theorem copy_onto_itself (B PM fuel : Nat) (w : World) (src dst : CStr) (num_parts : Int)
    (cli_options : parser_options) (iS : Nat)
    (hsrc : pathIno w src = some iS) (hdst : pathIno w dst = some iS)
    (hreg : (w.inodes iS).kind = Kind.reg)
    (h1 : 1 ≤ num_parts) (hmax : num_parts < 2147483647)
    (hfuel : num_parts < fuel) :
    ∃ w1, copy B PM fuel w src dst num_parts cli_options = (some ErrorCode.ERR_OK, w1) ∧
      fileContent w1 src = some [] ∧ fileContent w1 dst = some [] ∧ w1.tick = w.tick := by
  have ho : sys_open_rdonly w src
      = (((freshFd w.fds : Nat) : Int), { w with fds := (freshFd w.fds, iS) :: w.fds }) := by
    unfold sys_open_rdonly; simp only [hsrc]; rfl
  obtain ⟨w2, hopen2, hsrc2, hdst2, hdata, htick⟩ :=
    sys_open_creat_trunc_same { w with fds := (freshFd w.fds, iS) :: w.fds } src dst
      (get_file_info w src num_parts).permissions iS hsrc hdst hreg
  have hopen2' : sys_open_creat_trunc { w with fds := (freshFd w.fds, iS) :: w.fds } dst
      (get_file_info w src num_parts).permissions
      = (((freshFd ((freshFd w.fds, iS) :: w.fds) : Nat) : Int), w2) := hopen2
  have htick' : w2.tick = w.tick := htick
  have hf1 : ¬ (((freshFd w.fds : Nat) : Int) = -1) := by omega
  have hf2 : ¬ (((freshFd ((freshFd w.fds, iS) :: w.fds) : Nat) : Int) = -1) := by omega
  obtain ⟨hfull, hpart⟩ := copy_drivers_empty B fuel w2 ((freshFd w.fds : Nat) : Int)
    ((freshFd ((freshFd w.fds, iS) :: w.fds) : Nat) : Int) iS src num_parts hsrc2 hdata h1 hmax hfuel
  have hcs : fileContent w2 src = some [] := by
    unfold fileContent; rw [hsrc2]; simp [hdata]
  have hcd : fileContent w2 dst = some [] := by
    unfold fileContent; rw [hdst2]; simp [hdata]
  unfold copy
  simp only [get_file_info_file_name, ho, hf1, if_false, hopen2', hf2]
  by_cases hone : num_parts = 1
  · simp only [hone, if_true] at hfull ⊢
    rw [hfull]
    refine ⟨_, rfl, ?_, ?_, ?_⟩
    · rw [(finish_keeps PM w2 _ _ _ _ src).1]; exact hcs
    · rw [(finish_keeps PM w2 _ _ _ _ dst).1]; exact hcd
    · rw [(finish_keeps PM w2 _ _ _ _ dst).2]; exact htick'
  · have hgt : num_parts > 1 := by omega
    simp only [hone, if_false, hgt, if_true]
    rw [hpart]
    refine ⟨_, rfl, ?_, ?_, ?_⟩
    · rw [(finish_keeps PM w2 _ _ _ _ src).1]; exact hcs
    · rw [(finish_keeps PM w2 _ _ _ _ dst).1]; exact hcd
    · rw [(finish_keeps PM w2 _ _ _ _ dst).2]; exact htick'

/-- Witness of `copy_onto_itself`: /s/f copied onto itself in three parts. -/
theorem copy_onto_itself_witness :
    (pathIno sampleWorld ['/', 's', '/', 'f'] = some 2 ∧
      (sampleWorld.inodes 2).kind = Kind.reg ∧ (1 : Int) ≤ 3 ∧ (3 : Int) < 2147483647 ∧
      (3 : Int) < ((5 : Nat) : Int) ∧
      fileContent sampleWorld ['/', 's', '/', 'f'] = some [1, 2, 3, 4, 5]) ∧
    ∃ w1, copy 4 4096 5 sampleWorld ['/', 's', '/', 'f'] ['/', 's', '/', 'f'] 3 plainOptions
        = (some ErrorCode.ERR_OK, w1) ∧
      fileContent w1 ['/', 's', '/', 'f'] = some [] ∧
      fileContent w1 ['/', 's', '/', 'f'] = some [] ∧ w1.tick = sampleWorld.tick :=
  ⟨⟨by decide, by decide, by decide, by decide, by decide, by decide⟩,
    copy_onto_itself 4 4096 5 sampleWorld ['/', 's', '/', 'f'] ['/', 's', '/', 'f'] 3
      plainOptions 2 (by decide) (by decide) (by decide) (by decide) (by decide) (by decide)⟩

/-! ## C9: chunk results of zero -/

theorem sys_copy_file_range_frame (w : World) (a : KernelAnswer) (fs so fd dof : Int) (n : Nat) :
    (sys_copy_file_range w a fs so fd dof n).2.2.2.tick = w.tick ∧
    (sys_copy_file_range w a fs so fd dof n).2.2.2.fds = w.fds ∧
    (sys_copy_file_range w a fs so fd dof n).2.2.2.answers = w.answers ∧
    ((sys_copy_file_range w a fs so fd dof n).1 ≤ 0 →
      (sys_copy_file_range w a fs so fd dof n).2.1 = so ∧
      (sys_copy_file_range w a fs so fd dof n).2.2.1 = dof) := by
  unfold sys_copy_file_range
  split
  · split
    · exact ⟨rfl, rfl, rfl, fun _ => ⟨rfl, rfl⟩⟩
    · split
      · exact ⟨rfl, rfl, rfl, fun _ => ⟨rfl, rfl⟩⟩
      · refine ⟨rfl, rfl, rfl, ?_⟩
        intro h
        simp only [Int.ofNat_eq_coe] at h
        constructor <;> simp only <;> omega
  · exact ⟨rfl, rfl, rfl, fun _ => ⟨rfl, rfl⟩⟩

theorem sys_pread_frame (w : World) (a : KernelAnswer) (fd : Int) (n : Nat) (off : Int) :
    (sys_pread w a fd n off).2.2.tick = w.tick ∧
    (sys_pread w a fd n off).2.2.fds = w.fds ∧
    (sys_pread w a fd n off).2.2.answers = w.answers := by
  unfold sys_pread
  split
  · exact ⟨rfl, rfl, rfl⟩
  · split
    · exact ⟨rfl, rfl, rfl⟩
    · split <;> exact ⟨rfl, rfl, rfl⟩

theorem sys_pwrite_frame (w : World) (a : KernelAnswer) (fd : Int) (buf : List Nat) (off : Int) :
    (sys_pwrite w a fd buf off).2.tick = w.tick ∧
    (sys_pwrite w a fd buf off).2.fds = w.fds ∧
    (sys_pwrite w a fd buf off).2.answers = w.answers := by
  unfold sys_pwrite
  split
  · exact ⟨rfl, rfl, rfl⟩
  · split
    · exact ⟨rfl, rfl, rfl⟩
    · split <;> exact ⟨rfl, rfl, rfl⟩

/-- What every call of `secure_copy_chunk` leaves in place: it consumes one
kernel answer, keeps descriptors and answers, and a result of 0 leaves both
offsets as they were. -/
theorem secure_copy_chunk_frame (w : World) (fs so fd dof : Int) (n : Nat) :
    (secure_copy_chunk w fs so fd dof n).2.2.2.tick = w.tick + 1 ∧
    (secure_copy_chunk w fs so fd dof n).2.2.2.fds = w.fds ∧
    (secure_copy_chunk w fs so fd dof n).2.2.2.answers = w.answers ∧
    ((secure_copy_chunk w fs so fd dof n).1 = 0 →
      (secure_copy_chunk w fs so fd dof n).2.1 = so ∧
      (secure_copy_chunk w fs so fd dof n).2.2.1 = dof) := by
  unfold secure_copy_chunk
  dsimp only
  obtain ⟨c1, c2, c3, c4⟩ :=
    sys_copy_file_range_frame { w with tick := w.tick + 1 } (w.answers w.tick) fs so fd dof n
  generalize sys_copy_file_range { w with tick := w.tick + 1 } (w.answers w.tick) fs so fd dof n
    = rc at c1 c2 c3 c4 ⊢
  obtain ⟨cr, so1, do1, w1⟩ := rc
  simp only at c1 c2 c3 c4 ⊢
  split
  · refine ⟨c1, c2, c3, ?_⟩
    intro h; exact c4 (by simp only at h; omega)
  · have hneg : cr ≤ 0 := by omega
    obtain ⟨e1, e2⟩ := c4 hneg
    split
    · obtain ⟨p1, p2, p3⟩ := sys_pread_frame w1 (w.answers w.tick) fs n so1
      generalize sys_pread w1 (w.answers w.tick) fs n so1 = rp at p1 p2 p3 ⊢
      obtain ⟨br, buf, w2⟩ := rp
      simp only at p1 p2 p3 ⊢
      split
      · exact ⟨by rw [p1, c1], by rw [p2, c2], by rw [p3, c3], fun _ => ⟨e1, e2⟩⟩
      · obtain ⟨q1, q2, q3⟩ := sys_pwrite_frame w2 (w.answers w.tick) fd buf do1
        generalize sys_pwrite w2 (w.answers w.tick) fd buf do1 = rq at q1 q2 q3 ⊢
        obtain ⟨bw, w3⟩ := rq
        simp only at q1 q2 q3 ⊢
        split
        · refine ⟨by rw [q1, p1, c1], by rw [q2, p2, c2], by rw [q3, p3, c3], ?_⟩
          intro h; simp only at h; omega
        · exact ⟨by rw [q1, p1, c1], by rw [q2, p2, c2], by rw [q3, p3, c3], fun _ => ⟨e1, e2⟩⟩
    · refine ⟨c1, c2, c3, ?_⟩
      intro h; simp only at h; omega

/-- Under a zero answer the chunk copier returns 0. -/
theorem secure_copy_chunk_zero (w : World) (fs so fd dof : Int) (n iS iD : Nat)
    (hs : fdIno w fs = some iS) (hd : fdIno w fd = some iD) (hso : 0 ≤ so) (hdo : 0 ≤ dof)
    (hz : zeroAnswer (w.answers w.tick)) :
    (secure_copy_chunk w fs so fd dof n).1 = 0 := by
  have hs1 : fdIno { w with tick := w.tick + 1 } fs = some iS := hs
  have hd1 : fdIno { w with tick := w.tick + 1 } fd = some iD := hd
  have hoff : ¬ (so < 0 ∨ dof < 0) := by omega
  have hso' : ¬ (so < 0) := by omega
  have hdo' : ¬ (dof < 0) := by omega
  rcases hz with ⟨hnone, hmax⟩ | ⟨e, he, hfb, hrw⟩
  · unfold secure_copy_chunk sys_copy_file_range
    simp [hs1, hd1, hoff, hnone, hmax, readAt]
  · have hs2 : fdIno (World.setErrno { w with tick := w.tick + 1 } e) fs = some iS := hs
    have hd2 : fdIno (World.setErrno { w with tick := w.tick + 1 } e) fd = some iD := hd
    have hneg : ¬ ((-1 : Int) ≥ 0) := by omega
    unfold secure_copy_chunk sys_copy_file_range
    simp only [hs1, hd1, hoff, he, if_false, hneg, setErrno_errno, hfb, if_true]
    unfold sys_pread
    simp only [hs2, hso', if_false]
    rcases hrw with hr | ⟨hr, hwz⟩
    · have : ¬ ((w.answers w.tick).pread_ret < 0) := by omega
      simp [this, hr, readAt]
    · have hr0 : ¬ ((w.answers w.tick).pread_ret < 0) := by omega
      simp only [hr0, if_false]
      split
      · next h => simp only [Int.ofNat_eq_coe] at h ⊢; omega
      · unfold sys_pwrite
        have hw0 : ¬ ((w.answers w.tick).pwrite_ret < 0) := by omega
        simp [hd2, hdo', hw0, hwz]

/-- Iterations of the copy loops in which the chunk copier returns 0 repeat
with the same loop state, for ever when the kernel keeps answering so. -/
theorem copy_loops_stall (B : Nat) (fs fd : Int) (total : Int) (iS iD : Nat) (w0 : World)
    (hz : ∀ t, zeroAnswer (w0.answers t)) (tw so dof : Int)
    (hso : 0 ≤ so) (hdo : 0 ≤ dof) (hlt : tw < total) :
    ∀ (fuel : Nat) (w : World), fdIno w fs = some iS → fdIno w fd = some iD →
      w.answers = w0.answers →
      (copy_full_loop B fs fd total fuel w tw so dof).1 = none ∧
      (copy_part_loop B fs fd total fuel w tw so dof).1 = some none := by
  intro fuel
  induction fuel with
  | zero => intro w _ _ _; exact ⟨rfl, rfl⟩
  | succ fuel ih =>
    intro w hs hd ha
    have hza : zeroAnswer (w.answers w.tick) := by rw [ha]; exact hz _
    have h0 := secure_copy_chunk_zero w fs so fd dof (chunkSize B total tw) iS iD hs hd hso hdo hza
    obtain ⟨f1, f2, f3, f4⟩ := secure_copy_chunk_frame w fs so fd dof (chunkSize B total tw)
    obtain ⟨e1, e2⟩ := f4 h0
    have hs' : fdIno (secure_copy_chunk w fs so fd dof (chunkSize B total tw)).2.2.2 fs = some iS := by
      rw [← hs]; exact fdIno_congr _ _ _ f2
    have hd' : fdIno (secure_copy_chunk w fs so fd dof (chunkSize B total tw)).2.2.2 fd = some iD := by
      rw [← hd]; exact fdIno_congr _ _ _ f2
    have := ih _ hs' hd' (by rw [f3, ha])
    unfold copy_full_loop copy_part_loop
    simp only [hlt, if_true, h0, e1, e2, lt_irrefl, if_false, add_zero]
    exact this

/-- When no chunk result is 0 the copy loops return within total_size − written
iterations, each of which makes one chunk call. -/
theorem copy_loops_return (B : Nat) (fs fd : Int) (total : Int) :
    ∀ (fuel : Nat) (w : World) (tw so dof : Int),
      chunkResultsNonzero B fs fd total fuel w tw so dof → (total - tw).toNat < fuel →
      ((copy_full_loop B fs fd total fuel w tw so dof).1 ≠ none ∧
        (copy_full_loop B fs fd total fuel w tw so dof).2.tick ≤ w.tick + (total - tw).toNat) ∧
      ((copy_part_loop B fs fd total fuel w tw so dof).1 ≠ some none ∧
        (copy_part_loop B fs fd total fuel w tw so dof).2.tick ≤ w.tick + (total - tw).toNat) := by
  intro fuel
  induction fuel with
  | zero => intro w tw so dof _ h; omega
  | succ fuel ih =>
    intro w tw so dof hnz hfuel
    unfold chunkResultsNonzero at hnz
    unfold copy_full_loop copy_part_loop
    by_cases hlt : tw < total
    · simp only [hlt, if_true] at hnz ⊢
      obtain ⟨f1, -, -, -⟩ := secure_copy_chunk_frame w fs so fd dof (chunkSize B total tw)
      generalize secure_copy_chunk w fs so fd dof (chunkSize B total tw) = r at hnz f1 ⊢
      obtain ⟨br, so1, do1, w1⟩ := r
      simp only at hnz f1 ⊢
      obtain ⟨hres, hrec⟩ := hnz
      by_cases hneg : br < 0
      · simp only [hneg, if_true, sys_close_tick, f1]
        refine ⟨⟨by simp, by omega⟩, ⟨by simp, by omega⟩⟩
      · simp only [hneg, if_false]
        have hpos : 1 ≤ br := by omega
        obtain ⟨⟨a1, a2⟩, ⟨b1, b2⟩⟩ := ih w1 (tw + br) so1 do1 (hrec (by omega)) (by omega)
        refine ⟨⟨a1, ?_⟩, ⟨b1, ?_⟩⟩
        · rw [f1] at a2; omega
        · rw [f1] at b2; omega
    · simp only [hlt, if_false]
      refine ⟨⟨by simp, by omega⟩, ⟨by simp, by omega⟩⟩

/-- C9 (a chunk result of 0 is not a failure and makes no progress).  In the
loops of copy_full and copy_part: (1) a call of secure_copy_chunk that returns 0
leaves both offsets unchanged; (2) when it returns 0 while written < total_size
the next iteration starts from the same bytes-written and offsets, so the loop
condition still holds; (3) when the kernel keeps answering with zero-byte
transfers neither loop returns, whatever the fuel; (4) when every chunk result
is negative or between 1 and the requested count both loops return after at
most total_size − written chunk calls. -/
theorem copy_loops_zero_chunk (B : Nat) (fs fd : Int) (total : Int) :
    (∀ (w : World) (so dof : Int) (n : Nat), (secure_copy_chunk w fs so fd dof n).1 = 0 →
      (secure_copy_chunk w fs so fd dof n).2.1 = so ∧
      (secure_copy_chunk w fs so fd dof n).2.2.1 = dof) ∧
    (∀ (fuel : Nat) (w : World) (tw so dof : Int), tw < total →
      (secure_copy_chunk w fs so fd dof (chunkSize B total tw)).1 = 0 →
      copy_full_loop B fs fd total (fuel + 1) w tw so dof
        = copy_full_loop B fs fd total fuel
            (secure_copy_chunk w fs so fd dof (chunkSize B total tw)).2.2.2 tw so dof ∧
      copy_part_loop B fs fd total (fuel + 1) w tw so dof
        = copy_part_loop B fs fd total fuel
            (secure_copy_chunk w fs so fd dof (chunkSize B total tw)).2.2.2 tw so dof) ∧
    (∀ (w : World) (iS iD : Nat) (tw so dof : Int),
      fdIno w fs = some iS → fdIno w fd = some iD → 0 ≤ so → 0 ≤ dof → tw < total →
      (∀ t, zeroAnswer (w.answers t)) →
      ∀ fuel : Nat, (copy_full_loop B fs fd total fuel w tw so dof).1 = none ∧
        (copy_part_loop B fs fd total fuel w tw so dof).1 = some none) ∧
    (∀ (fuel : Nat) (w : World) (tw so dof : Int),
      chunkResultsNonzero B fs fd total fuel w tw so dof → (total - tw).toNat < fuel →
      ((copy_full_loop B fs fd total fuel w tw so dof).1 ≠ none ∧
        (copy_full_loop B fs fd total fuel w tw so dof).2.tick ≤ w.tick + (total - tw).toNat) ∧
      ((copy_part_loop B fs fd total fuel w tw so dof).1 ≠ some none ∧
        (copy_part_loop B fs fd total fuel w tw so dof).2.tick ≤ w.tick + (total - tw).toNat)) := by
  refine ⟨?_, ?_, ?_, ?_⟩
  · intro w so dof n h
    exact (secure_copy_chunk_frame w fs so fd dof n).2.2.2 h
  · intro fuel w tw so dof hlt h0
    obtain ⟨e1, e2⟩ := (secure_copy_chunk_frame w fs so fd dof (chunkSize B total tw)).2.2.2 h0
    constructor
    · conv_lhs => unfold copy_full_loop
      simp only [hlt, if_true, h0, lt_irrefl, if_false, add_zero, e1, e2]
    · conv_lhs => unfold copy_part_loop
      simp only [hlt, if_true, h0, lt_irrefl, if_false, add_zero, e1, e2]
  · intro w iS iD tw so dof hs hd hso hdo hlt hz fuel
    exact copy_loops_stall B fs fd total iS iD w hz tw so dof hso hdo hlt fuel w hs hd rfl
  · exact copy_loops_return B fs fd total

/-- Instances of `copy_loops_zero_chunk`: on `stalledWorld`, where every
transfer moves no byte, the loops of copy_full and copy_part for the five bytes
of /s/f never return; on `openedWorld`, where every transfer moves at least one
byte, they return after at most five chunk calls. -/
theorem copy_loops_zero_chunk_witness :
    (∀ fuel : Nat, (copy_full_loop 4 1 2 5 fuel stalledWorld 0 0 0).1 = none ∧
      (copy_part_loop 4 1 2 5 fuel stalledWorld 0 0 0).1 = some none) ∧
    (chunkResultsNonzero 4 1 2 5 6 openedWorld 0 0 0 ∧
      ((copy_full_loop 4 1 2 5 6 openedWorld 0 0 0).1 ≠ none ∧
        (copy_full_loop 4 1 2 5 6 openedWorld 0 0 0).2.tick
          ≤ openedWorld.tick + ((5 : Int) - 0).toNat) ∧
      ((copy_part_loop 4 1 2 5 6 openedWorld 0 0 0).1 ≠ some none ∧
        (copy_part_loop 4 1 2 5 6 openedWorld 0 0 0).2.tick
          ≤ openedWorld.tick + ((5 : Int) - 0).toNat)) :=
  ⟨(copy_loops_zero_chunk 4 1 2 5).2.2.1 stalledWorld 2 3 0 0 0 (by decide) (by decide)
      (by decide) (by decide) (by decide) (fun _ => Or.inl ⟨rfl, rfl⟩),
    by decide,
    (copy_loops_zero_chunk 4 1 2 5).2.2.2 6 openedWorld 0 0 0 (by decide) (by decide)⟩

/-! ## C4: path checks of mkdir_p -/

theorem sys_mkdir_log (w : World) (p : CStr) (m : Nat) :
    (sys_mkdir w p m).2.log = w.log ++ [Call.mkdir p] := by
  unfold sys_mkdir
  dsimp only
  split
  · rfl
  · split
    · rfl
    · split
      · rfl
      · split <;> rfl

theorem sys_stat_log (w : World) (p : CStr) :
    (sys_stat w p).2.2.log = w.log ++ [Call.stat p] := by
  unfold sys_stat
  dsimp only
  split <;> rfl

/-- One mkdir statement of mkdir_p logs its mkdir call. -/
theorem mkdir_p_step_log (w : World) (tmp : CStr) (mode : Nat) :
    w.log.length < (mkdir_p_step w tmp mode).2.log.length := by
  unfold mkdir_p_step
  have h1 := sys_mkdir_log w tmp mode
  generalize sys_mkdir w tmp mode = r at h1 ⊢
  obtain ⟨rv, w1⟩ := r
  simp only at h1 ⊢
  have h2 := sys_stat_log w1 tmp
  generalize sys_stat w1 tmp = r2 at h2 ⊢
  obtain ⟨sr, sm, w2⟩ := r2
  simp only at h2 ⊢
  split
  · split
    · split
      · simp only [setErrno_log, h2, h1, List.length_append, List.length_singleton]; omega
      · simp only [h2, h1, List.length_append, List.length_singleton]; omega
    · simp only [h1, List.length_append, List.length_singleton]; omega
  · simp only [h1, List.length_append, List.length_singleton]; omega

/-- The loop of mkdir_p never shortens the call log, and it returns early only
after a call. -/
theorem mkdir_p_loop_log (mode : Nat) :
    ∀ (rest pre : CStr) (w : World),
      w.log.length ≤ (mkdir_p_loop mode w pre rest).2.log.length ∧
      ((mkdir_p_loop mode w pre rest).1 ≠ none →
        w.log.length < (mkdir_p_loop mode w pre rest).2.log.length) := by
  intro rest
  induction rest with
  | nil => intro pre w; unfold mkdir_p_loop; exact ⟨le_refl _, fun h => absurd rfl h⟩
  | cons c rest ih =>
    intro pre w
    unfold mkdir_p_loop
    split
    · have h := mkdir_p_step_log w pre mode
      generalize mkdir_p_step w pre mode = r at h ⊢
      obtain ⟨e, w1⟩ := r
      cases e with
      | some e => simp only at h ⊢; exact ⟨by omega, fun _ => h⟩
      | none =>
        simp only at h ⊢
        obtain ⟨i1, i2⟩ := ih (pre ++ [c]) w1
        exact ⟨by omega, fun _ => by omega⟩
    · exact ih (pre ++ [c]) w

/-- C4 (path checks of mkdir_p).  A null path and an empty path are rejected
with ERR_UNKNOWN before any call is made.  A path of PATH_MAX or more characters
is not: snprintf has cut the copy to PATH_MAX − 1 characters before its length
is compared with PATH_MAX, so the length check never fires and mkdir_p goes on
to call mkdir. -/
theorem mkdir_p_long_path_not_rejected (PM : Nat) (w : World) (path : CStr) (mode : Nat)
    (hPM : 2 ≤ PM) (hlen : PM ≤ path.length) :
    (mkdir_p PM w none mode).1 = ErrorCode.ERR_UNKNOWN ∧
    (mkdir_p PM w none mode).2.log = w.log ∧
    (mkdir_p PM w (some []) mode).1 = ErrorCode.ERR_UNKNOWN ∧
    (mkdir_p PM w (some []) mode).2.log = w.log ∧
    w.log.length < (mkdir_p PM w (some path) mode).2.log.length := by
  refine ⟨rfl, rfl, rfl, rfl, ?_⟩
  have hne : path ≠ [] := by
    intro h; rw [h] at hlen; simp at hlen; omega
  have htl : (path.take (PM - 1)).length = PM - 1 := by
    rw [List.length_take]; omega
  have hchk : ¬ ((path.take (PM - 1)).length = 0 ∨ (path.take (PM - 1)).length ≥ PM) := by
    rw [htl]; omega
  unfold mkdir_p
  simp only [hne, if_false, hchk]
  generalize (if (path.take (PM - 1)).getLast? = some '/' then (path.take (PM - 1)).dropLast
    else path.take (PM - 1)) = tmp
  obtain ⟨h1, h1s⟩ := mkdir_p_loop_log mode (tmp.drop 1) (tmp.take 1) w
  generalize mkdir_p_loop mode w (tmp.take 1) (tmp.drop 1) = r at h1 h1s ⊢
  obtain ⟨e, w1⟩ := r
  cases e with
  | some e =>
    exact h1s (by simp)
  | none =>
    simp only at h1 ⊢
    have h2 := mkdir_p_step_log w1 tmp mode
    generalize mkdir_p_step w1 tmp mode = r2 at h2 ⊢
    obtain ⟨e2, w2⟩ := r2
    cases e2 with
    | some e2 => simp only at h2 ⊢; omega
    | none => simp only at h2 ⊢; omega

/-- Witness of `mkdir_p_long_path_not_rejected`: with PATH_MAX = 4096, a path of
4096 characters. -/
theorem mkdir_p_long_path_not_rejected_witness :
    ((2 : Nat) ≤ 4096 ∧ 4096 ≤ (List.replicate 4096 'a').length) ∧
    ((mkdir_p 4096 sampleWorld none 493).1 = ErrorCode.ERR_UNKNOWN ∧
    (mkdir_p 4096 sampleWorld none 493).2.log = sampleWorld.log ∧
    (mkdir_p 4096 sampleWorld (some []) 493).1 = ErrorCode.ERR_UNKNOWN ∧
    (mkdir_p 4096 sampleWorld (some []) 493).2.log = sampleWorld.log ∧
    sampleWorld.log.length
      < (mkdir_p 4096 sampleWorld (some (List.replicate 4096 'a')) 493).2.log.length) :=
  ⟨⟨by decide, by rw [List.length_replicate]⟩,
    mkdir_p_long_path_not_rejected 4096 sampleWorld (List.replicate 4096 'a') 493
      (by decide) (by rw [List.length_replicate])⟩

/-- With PATH_MAX = 8 the ten-character path a/a/a/a/a/ is not rejected:
mkdir_p creates the directories named by its first seven characters and
returns ERR_OK. -/
theorem mkdir_p_long_path_example :
    (mkdir_p 8 sampleWorld (some ['a', '/', 'a', '/', 'a', '/', 'a', '/', 'a', '/']) 493).1
      = ErrorCode.ERR_OK ∧
    (mkdir_p 8 sampleWorld (some ['a', '/', 'a', '/', 'a', '/', 'a', '/', 'a', '/']) 493).2.log
      = [Call.mkdir ['a'], Call.mkdir ['a', '/', 'a'], Call.mkdir ['a', '/', 'a', '/', 'a'],
         Call.mkdir ['a', '/', 'a', '/', 'a', '/', 'a']] := by
  decide

/-! ## C1 and C3: the part-count check and the descriptors of copy -/

/-- What `copy` has done when it reaches the part-count check with
num_parts < 1: both files are open, the destination is created or truncated. -/
theorem copy_invalid_parts (B PM fuel : Nat) (w : World) (src dst : CStr) (num_parts : Int)
    (cli_options : parser_options) (iS : Nat)
    (hwf : w.wellFormed) (hsrc : pathIno w src = some iS) (hdst : dstWritable w dst)
    (hne : pathIno w dst ≠ some iS) (hn : num_parts < 1) :
    ∃ (iD : Nat) (w1 : World),
      copy B PM fuel w src dst num_parts cli_options
        = (some ErrorCode.ERR_COPY_FILE_NOT_ALLOWED, w1) ∧
      fileContent w1 dst = some [] ∧
      w1.fds = (freshFd ((freshFd w.fds, iS) :: w.fds), iD) :: (freshFd w.fds, iS) :: w.fds := by
  have ho : sys_open_rdonly w src
      = (((freshFd w.fds : Nat) : Int), { w with fds := (freshFd w.fds, iS) :: w.fds }) := by
    unfold sys_open_rdonly; simp only [hsrc]; rfl
  obtain ⟨iD, w2, hopen2, -, hfds2, -, hdst2, -, hdataD, -⟩ :=
    sys_open_creat_trunc_ok { w with fds := (freshFd w.fds, iS) :: w.fds } src dst
      (get_file_info w src num_parts).permissions iS hwf hsrc hdst hne
  have hopen2' : sys_open_creat_trunc { w with fds := (freshFd w.fds, iS) :: w.fds } dst
      (get_file_info w src num_parts).permissions
      = (((freshFd ((freshFd w.fds, iS) :: w.fds) : Nat) : Int), w2) := hopen2
  have hf1 : ¬ (((freshFd w.fds : Nat) : Int) = -1) := by omega
  have hf2 : ¬ (((freshFd ((freshFd w.fds, iS) :: w.fds) : Nat) : Int) = -1) := by omega
  have hn1 : ¬ (num_parts = 1) := by omega
  have hn2 : ¬ (num_parts > 1) := by omega
  refine ⟨iD, w2, ?_, ?_, hfds2⟩
  · unfold copy
    simp only [get_file_info_file_name, ho, hf1, if_false, hopen2', hf2, hn1, hn2]
  · unfold fileContent
    rw [hdst2]
    simp [hdataD]

/-- C1 (invalid part count).  The part-count check of `copy` comes after both
opens: with num_parts < 1, an existing source and a destination that can be
opened for writing, `copy` returns ERR_COPY_FILE_NOT_ALLOWED only after the
destination has been created or truncated, so the destination is an empty file
afterwards whatever it was before. -/
theorem copy_invalid_parts_truncates (B PM fuel : Nat) (w : World) (src dst : CStr)
    (num_parts : Int) (cli_options : parser_options) (iS : Nat)
    (hwf : w.wellFormed) (hsrc : pathIno w src = some iS) (hdst : dstWritable w dst)
    (hne : pathIno w dst ≠ some iS) (hn : num_parts < 1) :
    (copy B PM fuel w src dst num_parts cli_options).1
      = some ErrorCode.ERR_COPY_FILE_NOT_ALLOWED ∧
    fileContent (copy B PM fuel w src dst num_parts cli_options).2 dst = some [] := by
  obtain ⟨iD, w1, h1, h2, -⟩ :=
    copy_invalid_parts B PM fuel w src dst num_parts cli_options iS hwf hsrc hdst hne hn
  rw [h1]
  exact ⟨rfl, h2⟩

/-- Witness of `copy_invalid_parts_truncates`: with num_parts = −1 the two
bytes of the existing file /g are lost. -/
theorem copy_invalid_parts_truncates_witness :
    (sampleWorld.wellFormed ∧ pathIno sampleWorld ['/', 's', '/', 'f'] = some 2 ∧
      dstWritable sampleWorld ['/', 'g'] ∧ pathIno sampleWorld ['/', 'g'] ≠ some 2 ∧
      (-1 : Int) < 1 ∧ fileContent sampleWorld ['/', 'g'] = some [9, 9]) ∧
    ((copy 4 4096 10 sampleWorld ['/', 's', '/', 'f'] ['/', 'g'] (-1) plainOptions).1
      = some ErrorCode.ERR_COPY_FILE_NOT_ALLOWED ∧
    fileContent (copy 4 4096 10 sampleWorld ['/', 's', '/', 'f'] ['/', 'g'] (-1) plainOptions).2
      ['/', 'g'] = some []) :=
  have hw : dstWritable sampleWorld ['/', 'g'] := Or.inl ⟨3, by decide, by decide⟩
  ⟨⟨sampleWorld_wellFormed, by decide, hw, by decide, by decide, by decide⟩,
    copy_invalid_parts_truncates 4 4096 10 sampleWorld ['/', 's', '/', 'f'] ['/', 'g'] (-1)
      plainOptions 2 sampleWorld_wellFormed (by decide) hw (by decide) (by decide)⟩

/-- With num_parts = 0 (the quotient size / 0 of get_file_info taken as 0) a
destination that did not exist is created before the part count is rejected. -/
theorem copy_invalid_parts_creates_example :
    fileContent sampleWorld ['/', 's', '/', 'h'] = none ∧
    (copy 4 4096 10 sampleWorld ['/', 's', '/', 'f'] ['/', 's', '/', 'h'] 0 plainOptions).1
      = some ErrorCode.ERR_COPY_FILE_NOT_ALLOWED ∧
    fileContent (copy 4 4096 10 sampleWorld ['/', 's', '/', 'f'] ['/', 's', '/', 'h'] 0
      plainOptions).2 ['/', 's', '/', 'h'] = some [] := by
  decide

/-- C3 (descriptors of copy).  Not every return path of `copy` closes what it
opened: when the part count is rejected (num_parts < 1) the call returns
ERR_COPY_FILE_NOT_ALLOWED with both the source and the destination descriptor
still in the descriptor table (two more descriptors than before the call, the
first of them referring to the source). -/
theorem copy_invalid_parts_leaks (B PM fuel : Nat) (w : World) (src dst : CStr)
    (num_parts : Int) (cli_options : parser_options) (iS : Nat)
    (hwf : w.wellFormed) (hsrc : pathIno w src = some iS) (hdst : dstWritable w dst)
    (hne : pathIno w dst ≠ some iS) (hn : num_parts < 1) :
    (copy B PM fuel w src dst num_parts cli_options).1
      = some ErrorCode.ERR_COPY_FILE_NOT_ALLOWED ∧
    (copy B PM fuel w src dst num_parts cli_options).2.fds.length = w.fds.length + 2 ∧
    fdIno (copy B PM fuel w src dst num_parts cli_options).2 ((freshFd w.fds : Nat) : Int)
      = some iS := by
  obtain ⟨iD, w1, h1, -, h3⟩ :=
    copy_invalid_parts B PM fuel w src dst num_parts cli_options iS hwf hsrc hdst hne hn
  rw [h1]
  refine ⟨rfl, by simp only [h3, List.length_cons], ?_⟩
  have hlt : freshFd w.fds < freshFd ((freshFd w.fds, iS) :: w.fds) :=
    freshFd_gt _ (freshFd w.fds, iS) (List.mem_cons_self _ _)
  exact fdIno_second w1 _ _ _ _ _ h3 (by omega)

/-- Witness of `copy_invalid_parts_leaks`: after copy with num_parts = −1 on a
machine without open descriptors, two descriptors are open. -/
theorem copy_invalid_parts_leaks_witness :
    (sampleWorld.wellFormed ∧ pathIno sampleWorld ['/', 's', '/', 'f'] = some 2 ∧
      dstWritable sampleWorld ['/', 'g'] ∧ pathIno sampleWorld ['/', 'g'] ≠ some 2 ∧
      (-1 : Int) < 1 ∧ sampleWorld.fds = []) ∧
    ((copy 4 4096 10 sampleWorld ['/', 's', '/', 'f'] ['/', 'g'] (-1) plainOptions).1
      = some ErrorCode.ERR_COPY_FILE_NOT_ALLOWED ∧
    (copy 4 4096 10 sampleWorld ['/', 's', '/', 'f'] ['/', 'g'] (-1) plainOptions).2.fds.length
      = sampleWorld.fds.length + 2 ∧
    fdIno (copy 4 4096 10 sampleWorld ['/', 's', '/', 'f'] ['/', 'g'] (-1) plainOptions).2
      ((freshFd sampleWorld.fds : Nat) : Int) = some 2) :=
  have hw : dstWritable sampleWorld ['/', 'g'] := Or.inl ⟨3, by decide, by decide⟩
  ⟨⟨sampleWorld_wellFormed, by decide, hw, by decide, by decide, by decide⟩,
    copy_invalid_parts_leaks 4 4096 10 sampleWorld ['/', 's', '/', 'f'] ['/', 'g'] (-1)
      plainOptions 2 sampleWorld_wellFormed (by decide) hw (by decide) (by decide)⟩

/-- The other leaking path and the closing ones, on the sample machine: when the
destination cannot be created (its directory /x does not exist) `copy` returns
ERR_COPY_FILE_CREATE with the source descriptor still open; after a successful
copy, and after a copy that fails in a chunk, no descriptor is left open. -/
theorem copy_descriptors_example :
    (copy 4 4096 10 sampleWorld ['/', 's', '/', 'f'] ['/', 'x', '/', 'g'] 1 plainOptions).1
      = some ErrorCode.ERR_COPY_FILE_CREATE ∧
    (copy 4 4096 10 sampleWorld ['/', 's', '/', 'f'] ['/', 'x', '/', 'g'] 1 plainOptions).2.fds
      = [(1, 2)] ∧
    (copy 4 4096 10 sampleWorld ['/', 's', '/', 'f'] ['/', 'g'] 2 plainOptions).1
      = some ErrorCode.ERR_OK ∧
    (copy 4 4096 10 sampleWorld ['/', 's', '/', 'f'] ['/', 'g'] 2 plainOptions).2.fds = [] ∧
    (copy 4 4096 10 { sampleWorld with answers := fun _ =>
        { cfr_errno := some Errno.EIO, cfr_max := 0, pread_ret := 0, pwrite_ret := 0 } }
      ['/', 's', '/', 'f'] ['/', 'g'] 1 plainOptions).1
      = some ErrorCode.ERR_COPY_FILE_FULL_FAIL ∧
    (copy 4 4096 10 { sampleWorld with answers := fun _ =>
        { cfr_errno := some Errno.EIO, cfr_max := 0, pread_ret := 0, pwrite_ret := 0 } }
      ['/', 's', '/', 'f'] ['/', 'g'] 1 plainOptions).2.fds = [] := by
  decide

/-! ## C5: mkdir_p on the root path -/

/-- C5 (mkdir_p and the root path).  For the path "/" mkdir_p removes the
trailing slash, is left with the empty string, calls mkdir on it and returns
ERR_UNKNOWN: in every state and for every mode the call fails, the first time
and every time after, although the root directory exists. -/
theorem mkdir_p_root_fails (PM : Nat) (w : World) (mode : Nat) (hPM : 2 ≤ PM) :
    (mkdir_p PM w (some ['/']) mode).1 = ErrorCode.ERR_UNKNOWN ∧
    (mkdir_p PM w (some ['/']) mode).2.log = w.log ++ [Call.mkdir []] ∧
    (mkdir_p PM (mkdir_p PM w (some ['/']) mode).2 (some ['/']) mode).1
      = ErrorCode.ERR_UNKNOWN := by
  have htake : List.take (PM - 1) ['/'] = ['/'] := by
    apply List.take_of_length_le
    simp only [List.length_singleton]; omega
  have hone : ∀ w1 : World, mkdir_p PM w1 (some ['/']) mode
      = (ErrorCode.ERR_UNKNOWN,
          World.setErrno { w1 with log := w1.log ++ [Call.mkdir []] } Errno.ENOENT) := by
    intro w1
    unfold mkdir_p
    have hchk : ¬ ((['/'] : CStr).length = 0 ∨ (['/'] : CStr).length ≥ PM) := by
      simp only [List.length_singleton]; omega
    simp only [htake, hchk]
    simp [mkdir_p_loop, mkdir_p_step, sys_mkdir, resolvePath]
  rw [hone w, hone]
  exact ⟨rfl, rfl, rfl⟩

/-- Witness of `mkdir_p_root_fails` with PATH_MAX = 4096. -/
theorem mkdir_p_root_fails_witness :
    (2 : Nat) ≤ 4096 ∧
    ((mkdir_p 4096 sampleWorld (some ['/']) 493).1 = ErrorCode.ERR_UNKNOWN ∧
    (mkdir_p 4096 sampleWorld (some ['/']) 493).2.log = sampleWorld.log ++ [Call.mkdir []] ∧
    (mkdir_p 4096 (mkdir_p 4096 sampleWorld (some ['/']) 493).2 (some ['/']) 493).1
      = ErrorCode.ERR_UNKNOWN) :=
  ⟨by decide, mkdir_p_root_fails 4096 sampleWorld 493 (by decide)⟩

/-- On other paths of the sample machine two calls of mkdir_p succeed and the
second leaves the directory table as the first left it: a new nested path ending
in a slash, and the existing directory /s. -/
theorem mkdir_p_twice_example :
    (mkdir_p 4096 sampleWorld (some ['/', 's', '/', 'a', '/', 'b', '/']) 493).1
      = ErrorCode.ERR_OK ∧
    (mkdir_p 4096 (mkdir_p 4096 sampleWorld (some ['/', 's', '/', 'a', '/', 'b', '/']) 493).2
      (some ['/', 's', '/', 'a', '/', 'b', '/']) 493).1 = ErrorCode.ERR_OK ∧
    (mkdir_p 4096 (mkdir_p 4096 sampleWorld (some ['/', 's', '/', 'a', '/', 'b', '/']) 493).2
      (some ['/', 's', '/', 'a', '/', 'b', '/']) 493).2.names
      = (mkdir_p 4096 sampleWorld (some ['/', 's', '/', 'a', '/', 'b', '/']) 493).2.names ∧
    (mkdir_p 4096 sampleWorld (some ['/', 's']) 493).1 = ErrorCode.ERR_OK ∧
    (mkdir_p 4096 sampleWorld (some ['/', 's']) 493).2.names = sampleWorld.names := by
  decide

/-! ## C6: copying a directory into a subdirectory of itself -/

/-- C6 (self-copy guard and a destination inside the source).  On the sample
machine copy_directory("/s", "/s/b") creates /s/b, finds it among the entries of
/s, and since /s/b/b does not exist yet the guard does not fire: the first
recursive call has the destination /s/b as its source, and each level repeats
this one level deeper (the calls below are those made with recursion fuel 4,
which the chain exhausts).  With PATH_MAX = 16 the chain ends only when the
joined paths are cut to the same string. -/
theorem copy_directory_into_itself :
    (copy_directory 4 4096 10 4 sampleWorld ['/', 's'] ['/', 's', '/', 'b'] plainOptions).1
      = none ∧
    (copy_directory 4 4096 10 4 sampleWorld ['/', 's'] ['/', 's', '/', 'b']
        plainOptions).2.log.filter
      (fun c => match c with
        | Call.copy_directory _ _ => true
        | _ => false)
      = [Call.copy_directory ['/', 's', '/', 'b'] ['/', 's', '/', 'b', '/', 'b'],
         Call.copy_directory ['/', 's', '/', 'b', '/', 'b'] ['/', 's', '/', 'b', '/', 'b', '/', 'b'],
         Call.copy_directory ['/', 's', '/', 'b', '/', 'b', '/', 'b']
           ['/', 's', '/', 'b', '/', 'b', '/', 'b', '/', 'b'],
         Call.copy_directory ['/', 's', '/', 'b', '/', 'b', '/', 'b', '/', 'b']
           ['/', 's', '/', 'b', '/', 'b', '/', 'b', '/', 'b', '/', 'b']] ∧
    (copy_directory 4 16 10 20 sampleWorld ['/', 's'] ['/', 's', '/', 'b'] plainOptions).1
      = some ErrorCode.ERR_OK ∧
    ((copy_directory 4 16 10 20 sampleWorld ['/', 's'] ['/', 's', '/', 'b']
        plainOptions).2.log.filter
      (fun c => match c with
        | Call.copy_directory _ _ => true
        | _ => false)).length = 5 := by
  decide

/-- The guard does its work when the destination is the source itself: every
entry is skipped, nothing is copied and no recursive call is made. -/
theorem copy_directory_onto_itself_example :
    (copy_directory 4 4096 10 4 sampleWorld ['/', 's'] ['/', 's'] plainOptions).1
      = some ErrorCode.ERR_OK ∧
    (copy_directory 4 4096 10 4 sampleWorld ['/', 's'] ['/', 's'] plainOptions).2.log
      = [Call.mkdir ['/', 's'], Call.stat ['/', 's']] ∧
    fileContent (copy_directory 4 4096 10 4 sampleWorld ['/', 's'] ['/', 's'] plainOptions).2
      ['/', 's', '/', 'f'] = some [1, 2, 3, 4, 5] := by
  decide

/-! ## mkdir_p: a second call after a successful one -/

theorem isDirPath_congr (w w1 : World) (p : CStr) (hn : w1.names = w.names)
    (hi : w1.inodes = w.inodes) : isDirPath w1 p ↔ isDirPath w p := by
  unfold isDirPath
  rw [hi]
  simp only [pathIno_congr w w1 p hn]

theorem wellFormed_congr (w w1 : World) (hn : w1.names = w.names)
    (hx : w1.nextIno = w.nextIno) (h : w.wellFormed) : w1.wellFormed := by
  unfold World.wellFormed at h ⊢
  rw [hn, hx]; exact h

/-- stat in the model: the tables are kept, and the call reports a directory
exactly when the path names one. -/
theorem sys_stat_spec (w : World) (p : CStr) :
    (sys_stat w p).2.2.names = w.names ∧ (sys_stat w p).2.2.inodes = w.inodes ∧
    (sys_stat w p).2.2.nextIno = w.nextIno ∧
    (((sys_stat w p).1 = 0 ∧ S_ISDIR (sys_stat w p).2.1 = true) ↔ isDirPath w p) := by
  unfold sys_stat isDirPath
  dsimp only
  have hp : pathIno { w with log := w.log ++ [Call.stat p] } p = pathIno w p := rfl
  rw [hp]
  cases h : pathIno w p with
  | none => simp
  | some i => simp [S_ISDIR]

/-- mkdir in the model on a well-formed state. -/
theorem sys_mkdir_spec (w : World) (p : CStr) (mode : Nat) (hwf : w.wellFormed) :
    (sys_mkdir w p mode).2.wellFormed ∧
    (∀ q, isDirPath w q → isDirPath (sys_mkdir w p mode).2 q) ∧
    ((sys_mkdir w p mode).1 = 0 → isDirPath (sys_mkdir w p mode).2 p) ∧
    (isDirPath w p → (sys_mkdir w p mode).1 ≠ 0 ∧
      (sys_mkdir w p mode).2.errno = Errno.EEXIST) ∧
    ((sys_mkdir w p mode).1 ≠ 0 → (sys_mkdir w p mode).2.names = w.names ∧
      (sys_mkdir w p mode).2.inodes = w.inodes ∧
      (sys_mkdir w p mode).2.nextIno = w.nextIno) := by
  unfold sys_mkdir
  dsimp only
  cases hr : resolvePath p with
  | none =>
    refine ⟨hwf, fun q h => h, ?_, ?_, ?_⟩
    · intro h; simp at h
    · rintro ⟨i, hi, -⟩
      unfold pathIno at hi; simp [hr] at hi
    · intro _; exact ⟨rfl, rfl, rfl⟩
  | some comps =>
    dsimp only
    have hlk : lookupIno { w with log := w.log ++ [Call.mkdir p] } comps = lookupIno w comps := rfl
    rw [hlk]
    cases hl : lookupIno w comps with
    | some ino =>
      refine ⟨hwf, fun q h => h, ?_, ?_, ?_⟩
      · intro h; simp at h
      · intro _; exact ⟨by simp, rfl⟩
      · intro _; exact ⟨rfl, rfl, rfl⟩
    | none =>
      dsimp only
      have hnd : ¬ isDirPath w p := by
        rintro ⟨i, hi, -⟩
        unfold pathIno at hi; simp [hr, hl] at hi
      have hlk2 : lookupIno { w with log := w.log ++ [Call.mkdir p] } comps.dropLast
          = lookupIno w comps.dropLast := rfl
      rw [hlk2]
      cases hpar : lookupIno w comps.dropLast with
      | none =>
        refine ⟨hwf, fun q h => h, ?_, fun h => absurd h hnd, ?_⟩
        · intro h; simp at h
        · intro _; exact ⟨rfl, rfl, rfl⟩
      | some par =>
        dsimp only
        cases hpk : (w.inodes par).kind with
        | dir =>
          dsimp only
          have hc : comps ≠ [] := by
            intro h; rw [h] at hl; simp [lookupIno] at hl
          refine ⟨?_, ?_, ?_, fun h => absurd h hnd, ?_⟩
          · constructor
            · show 0 < w.nextIno + 1
              omega
            · intro e he
              show e.2 < w.nextIno + 1
              rcases List.mem_cons.mp he with h | h
              · rw [h]; simp
              · have := hwf.2 e h; omega
          · rintro q ⟨i, hq, hqk⟩
            refine ⟨i, ?_, ?_⟩
            · unfold pathIno at hq ⊢
              cases hrq : resolvePath q with
              | none => simp [hrq] at hq
              | some qc =>
                simp only [hrq] at hq ⊢
                unfold lookupIno at hq ⊢
                by_cases hqc : qc = []
                · simp only [hqc, if_true] at hq ⊢; exact hq
                · simp only [hqc, if_false] at hq ⊢
                  have hdiff : qc ≠ comps := by
                    intro h
                    rw [h] at hq
                    unfold lookupIno at hl
                    simp only [hc, if_false] at hl
                    rw [hl] at hq
                    exact Option.noConfusion hq
                  rw [lookup_cons_ne _ _ _ _ hdiff]
                  exact hq
            · have hilt : i < w.nextIno := by
                unfold pathIno at hq
                cases hrq : resolvePath q with
                | none => simp [hrq] at hq
                | some qc =>
                  simp only [hrq] at hq
                  exact lookupIno_lt w hwf qc i hq
              show (setNode w.inodes w.nextIno _ i).kind = Kind.dir
              rw [setNode_other _ _ _ _ (by omega)]
              exact hqk
          · intro _
            refine ⟨w.nextIno, ?_, ?_⟩
            · unfold pathIno lookupIno
              simp only [hr, hc, if_false, List.lookup_cons_self]
            · show (setNode w.inodes w.nextIno _ w.nextIno).kind = Kind.dir
              rw [setNode_same]
          · intro h; simp at h
        | reg =>
          dsimp only
          refine ⟨hwf, fun q h => h, ?_, fun h => absurd h hnd, ?_⟩
          · intro h; simp at h
          · intro _; exact ⟨rfl, rfl, rfl⟩
        | other =>
          dsimp only
          refine ⟨hwf, fun q h => h, ?_, fun h => absurd h hnd, ?_⟩
          · intro h; simp at h
          · intro _; exact ⟨rfl, rfl, rfl⟩

/-- One mkdir statement of mkdir_p on a well-formed state: the state stays
well-formed, directories stay directories, and when the statement falls through
the string names a directory. -/
theorem mkdir_p_step_creates (w : World) (tmp : CStr) (mode : Nat) (hwf : w.wellFormed) :
    (mkdir_p_step w tmp mode).2.wellFormed ∧
    (∀ q, isDirPath w q → isDirPath (mkdir_p_step w tmp mode).2 q) ∧
    ((mkdir_p_step w tmp mode).1 = none → isDirPath (mkdir_p_step w tmp mode).2 tmp) := by
  unfold mkdir_p_step
  obtain ⟨m1, m2, m3, -, -⟩ := sys_mkdir_spec w tmp mode hwf
  generalize sys_mkdir w tmp mode = r at m1 m2 m3 ⊢
  obtain ⟨rv, w1⟩ := r
  simp only at m1 m2 m3 ⊢
  obtain ⟨s1, s2, s3, s4⟩ := sys_stat_spec w1 tmp
  generalize sys_stat w1 tmp = r2 at s1 s2 s3 s4 ⊢
  obtain ⟨sr, sm, w2⟩ := r2
  simp only at s1 s2 s3 s4 ⊢
  have hd12 : ∀ q, isDirPath w2 q ↔ isDirPath w1 q := fun q => isDirPath_congr w1 w2 q s1 s2
  split
  · split
    · split
      · refine ⟨wellFormed_congr w1 _ s1 s3 m1, ?_, fun h => by simp at h⟩
        intro q hq
        exact (isDirPath_congr w1 _ q s1 s2).mpr (m2 q hq)
      · next hcond =>
        refine ⟨wellFormed_congr w1 _ s1 s3 m1, fun q hq => (hd12 q).mpr (m2 q hq), ?_⟩
        intro _
        apply (hd12 tmp).mpr
        apply s4.mp
        constructor
        · by_contra h; exact hcond (Or.inl h)
        · by_contra h; exact hcond (Or.inr h)
    · exact ⟨m1, m2, fun h => by simp at h⟩
  · next hrv =>
    refine ⟨m1, m2, fun _ => m3 ?_⟩
    by_contra h; exact hrv h

/-- One mkdir statement of mkdir_p on a string that names a directory: it falls
through and leaves the tables as they are. -/
theorem mkdir_p_step_existing (w : World) (tmp : CStr) (mode : Nat) (hwf : w.wellFormed)
    (hdir : isDirPath w tmp) :
    (mkdir_p_step w tmp mode).1 = none ∧
    (mkdir_p_step w tmp mode).2.names = w.names ∧
    (mkdir_p_step w tmp mode).2.inodes = w.inodes ∧
    (mkdir_p_step w tmp mode).2.nextIno = w.nextIno := by
  unfold mkdir_p_step
  obtain ⟨-, m2, -, m4, m5⟩ := sys_mkdir_spec w tmp mode hwf
  obtain ⟨m4a, m4b⟩ := m4 hdir
  obtain ⟨n1, n2, n3⟩ := m5 m4a
  have hd1 := m2 tmp hdir
  generalize sys_mkdir w tmp mode = r at m4a m4b n1 n2 n3 hd1 ⊢
  obtain ⟨rv, w1⟩ := r
  simp only at m4a m4b n1 n2 n3 hd1 ⊢
  obtain ⟨s1, s2, s3, s4⟩ := sys_stat_spec w1 tmp
  obtain ⟨t1, t2⟩ := s4.mpr hd1
  generalize sys_stat w1 tmp = r2 at s1 s2 s3 t1 t2 ⊢
  obtain ⟨sr, sm, w2⟩ := r2
  simp only at s1 s2 s3 t1 t2 ⊢
  simp only [ne_eq, m4a, not_false_eq_true, if_true, m4b, t1, not_true_eq_false, t2, or_self,
    if_false]
  exact ⟨trivial, by rw [s1, n1], by rw [s2, n2], by rw [s3, n3]⟩

/-- The loop of mkdir_p, run to its end on a well-formed state, leaves every
string it called mkdir on as a directory. -/
theorem mkdir_p_loop_creates (mode : Nat) :
    ∀ (rest pre : CStr) (w : World), w.wellFormed →
      (mkdir_p_loop mode w pre rest).2.wellFormed ∧
      (∀ q, isDirPath w q → isDirPath (mkdir_p_loop mode w pre rest).2 q) ∧
      ((mkdir_p_loop mode w pre rest).1 = none →
        ∀ q ∈ slashPrefixes pre rest, isDirPath (mkdir_p_loop mode w pre rest).2 q) := by
  intro rest
  induction rest with
  | nil =>
    intro pre w hwf
    unfold mkdir_p_loop
    exact ⟨hwf, fun q h => h, fun _ q hq => by simp [slashPrefixes] at hq⟩
  | cons c rest ih =>
    intro pre w hwf
    unfold mkdir_p_loop slashPrefixes
    split
    · obtain ⟨a1, a2, a3⟩ := mkdir_p_step_creates w pre mode hwf
      generalize mkdir_p_step w pre mode = r at a1 a2 a3 ⊢
      obtain ⟨e, w1⟩ := r
      cases e with
      | some e => exact ⟨a1, a2, fun h => by simp at h⟩
      | none =>
        simp only at a1 a2 a3 ⊢
        obtain ⟨i1, i2, i3⟩ := ih (pre ++ [c]) w1 a1
        refine ⟨i1, fun q hq => i2 q (a2 q hq), ?_⟩
        intro hnone q hq
        rcases List.mem_cons.mp hq with h | h
        · rw [h]; exact i2 pre (a3 trivial)
        · exact i3 hnone q h
    · exact ih (pre ++ [c]) w hwf

/-- The loop of mkdir_p on a state in which every string it calls mkdir on
names a directory: it runs to its end and leaves the tables as they are. -/
theorem mkdir_p_loop_existing (mode : Nat) :
    ∀ (rest pre : CStr) (w : World), w.wellFormed →
      (∀ q ∈ slashPrefixes pre rest, isDirPath w q) →
      (mkdir_p_loop mode w pre rest).1 = none ∧
      (mkdir_p_loop mode w pre rest).2.names = w.names ∧
      (mkdir_p_loop mode w pre rest).2.inodes = w.inodes ∧
      (mkdir_p_loop mode w pre rest).2.nextIno = w.nextIno := by
  intro rest
  induction rest with
  | nil =>
    intro pre w _ _
    unfold mkdir_p_loop
    exact ⟨rfl, rfl, rfl, rfl⟩
  | cons c rest ih =>
    intro pre w hwf hall
    unfold mkdir_p_loop
    unfold slashPrefixes at hall
    split
    · next hc =>
      rw [if_pos hc] at hall
      obtain ⟨b1, b2, b3, b4⟩ :=
        mkdir_p_step_existing w pre mode hwf (hall pre (List.mem_cons_self _ _))
      generalize mkdir_p_step w pre mode = r at b1 b2 b3 b4 ⊢
      obtain ⟨e, w1⟩ := r
      simp only at b1 b2 b3 b4
      subst b1
      simp only
      have hwf1 : w1.wellFormed := wellFormed_congr w w1 b2 b4 hwf
      have hall1 : ∀ q ∈ slashPrefixes (pre ++ [c]) rest, isDirPath w1 q := by
        intro q hq
        exact (isDirPath_congr w w1 q b2 b3).mpr (hall q (List.mem_cons_of_mem _ hq))
      obtain ⟨i1, i2, i3, i4⟩ := ih (pre ++ [c]) w1 hwf1 hall1
      exact ⟨i1, by rw [i2, b2], by rw [i3, b3], by rw [i4, b4]⟩
    · next hc =>
      rw [if_neg hc] at hall
      exact ih (pre ++ [c]) w hwf hall

theorem mkdir_p_step_error (w : World) (tmp : CStr) (mode : Nat) (e : ErrorCode)
    (h : (mkdir_p_step w tmp mode).1 = some e) : e = ErrorCode.ERR_UNKNOWN := by
  unfold mkdir_p_step at h
  dsimp only at h
  split at h
  · split at h
    · split at h
      · simp only [Option.some.injEq] at h; exact h.symm
      · simp at h
    · simp only [Option.some.injEq] at h; exact h.symm
  · simp at h

theorem mkdir_p_loop_error (mode : Nat) :
    ∀ (rest pre : CStr) (w : World) (e : ErrorCode),
      (mkdir_p_loop mode w pre rest).1 = some e → e = ErrorCode.ERR_UNKNOWN := by
  intro rest
  induction rest with
  | nil => intro pre w e h; unfold mkdir_p_loop at h; simp at h
  | cons c rest ih =>
    intro pre w e h
    unfold mkdir_p_loop at h
    split at h
    · have hs := mkdir_p_step_error w pre mode
      generalize mkdir_p_step w pre mode = r at hs h
      obtain ⟨e1, w1⟩ := r
      cases e1 with
      | some e1 =>
        simp only at h hs
        have := hs e1 rfl
        simp only [Option.some.injEq] at h
        rw [← h]; exact this
      | none =>
        simp only at h
        exact ih _ _ e h
    · exact ih _ _ e h

/-- The string mkdir_p works on: the path cut to PATH_MAX − 1 characters, without
one trailing slash. -/
theorem mkdir_p_eq (PM : Nat) (path : CStr) (mode : Nat) (hne : path ≠ [])
    (hchk : ¬ ((path.take (PM - 1)).length = 0 ∨ (path.take (PM - 1)).length ≥ PM)) :
    ∃ tmp : CStr, ∀ w1 : World, mkdir_p PM w1 (some path) mode =
      match mkdir_p_loop mode w1 (tmp.take 1) (tmp.drop 1) with
      | (some e, w2) => (e, w2)
      | (none, w2) =>
        match mkdir_p_step w2 tmp mode with
        | (some e, w3) => (e, w3)
        | (none, w3) => (ErrorCode.ERR_OK, w3) := by
  refine ⟨if (path.take (PM - 1)).getLast? = some '/' then (path.take (PM - 1)).dropLast
    else path.take (PM - 1), ?_⟩
  intro w1
  unfold mkdir_p
  simp only [hne, if_false, hchk]

/-- mkdir_p is idempotent after a success: on a well-formed state, when a call
returns ERR_OK, a second call with the same arguments returns ERR_OK and leaves
the directory table and the inodes as the first call left them. -/
theorem mkdir_p_idempotent_after_success (PM : Nat) (w : World) (path : CStr) (mode : Nat)
    (hwf : w.wellFormed)
    (hok : (mkdir_p PM w (some path) mode).1 = ErrorCode.ERR_OK) :
    (mkdir_p PM (mkdir_p PM w (some path) mode).2 (some path) mode).1 = ErrorCode.ERR_OK ∧
    (mkdir_p PM (mkdir_p PM w (some path) mode).2 (some path) mode).2.names
      = (mkdir_p PM w (some path) mode).2.names ∧
    (mkdir_p PM (mkdir_p PM w (some path) mode).2 (some path) mode).2.inodes
      = (mkdir_p PM w (some path) mode).2.inodes := by
  by_cases hne : path = []
  · rw [hne] at hok
    have : (mkdir_p PM w (some []) mode).1 = ErrorCode.ERR_UNKNOWN := rfl
    rw [this] at hok
    exact absurd hok (by decide)
  by_cases hchk : (path.take (PM - 1)).length = 0 ∨ (path.take (PM - 1)).length ≥ PM
  · unfold mkdir_p at hok
    simp only [hne, if_false, hchk, if_true] at hok
    exact absurd hok (by decide)
  obtain ⟨tmp, heq⟩ := mkdir_p_eq PM path mode hne hchk
  rw [heq w] at hok ⊢
  rw [heq]
  obtain ⟨l1, l2, l3⟩ := mkdir_p_loop_creates mode (tmp.drop 1) (tmp.take 1) w hwf
  have lerr := mkdir_p_loop_error mode (tmp.drop 1) (tmp.take 1) w
  generalize mkdir_p_loop mode w (tmp.take 1) (tmp.drop 1) = r at hok l1 l2 l3 lerr ⊢
  obtain ⟨e1, wa⟩ := r
  cases e1 with
  | some e1 =>
    simp only at hok lerr
    have := lerr e1 rfl
    rw [this] at hok
    exact absurd hok (by decide)
  | none =>
    simp only at hok l1 l2 l3 ⊢
    obtain ⟨s1, s2, s3⟩ := mkdir_p_step_creates wa tmp mode l1
    have serr := mkdir_p_step_error wa tmp mode
    generalize mkdir_p_step wa tmp mode = r2 at hok s1 s2 s3 serr ⊢
    obtain ⟨e2, wb⟩ := r2
    cases e2 with
    | some e2 =>
      simp only at hok serr
      have := serr e2 rfl
      rw [this] at hok
      exact absurd hok (by decide)
    | none =>
      simp only at s1 s2 s3 ⊢
      have hpre : ∀ q ∈ slashPrefixes (tmp.take 1) (tmp.drop 1), isDirPath wb q :=
        fun q hq => s2 q (l3 trivial q hq)
      have htmp : isDirPath wb tmp := s3 trivial
      obtain ⟨c1, c2, c3, c4⟩ :=
        mkdir_p_loop_existing mode (tmp.drop 1) (tmp.take 1) wb s1 hpre
      generalize mkdir_p_loop mode wb (tmp.take 1) (tmp.drop 1) = r3 at c1 c2 c3 c4 ⊢
      obtain ⟨e3, wc⟩ := r3
      simp only at c1 c2 c3 c4
      subst c1
      simp only
      have hwfc : wc.wellFormed := wellFormed_congr wb wc c2 c4 s1
      have htmpc : isDirPath wc tmp := (isDirPath_congr wb wc tmp c2 c3).mpr htmp
      obtain ⟨d1, d2, d3, -⟩ := mkdir_p_step_existing wc tmp mode hwfc htmpc
      generalize mkdir_p_step wc tmp mode = r4 at d1 d2 d3 ⊢
      obtain ⟨e4, wd⟩ := r4
      simp only at d1 d2 d3
      subst d1
      simp only
      exact ⟨trivial, by rw [d2, c2], by rw [d3, c3]⟩

/-- An instance of `mkdir_p_idempotent_after_success`: the nested path /s/a/b/
on the sample machine. -/
theorem mkdir_p_idempotent_after_success_example :
    (mkdir_p 4096 (mkdir_p 4096 sampleWorld (some ['/', 's', '/', 'a', '/', 'b', '/']) 493).2
      (some ['/', 's', '/', 'a', '/', 'b', '/']) 493).1 = ErrorCode.ERR_OK ∧
    (mkdir_p 4096 (mkdir_p 4096 sampleWorld (some ['/', 's', '/', 'a', '/', 'b', '/']) 493).2
      (some ['/', 's', '/', 'a', '/', 'b', '/']) 493).2.names
      = (mkdir_p 4096 sampleWorld (some ['/', 's', '/', 'a', '/', 'b', '/']) 493).2.names ∧
    (mkdir_p 4096 (mkdir_p 4096 sampleWorld (some ['/', 's', '/', 'a', '/', 'b', '/']) 493).2
      (some ['/', 's', '/', 'a', '/', 'b', '/']) 493).2.inodes
      = (mkdir_p 4096 sampleWorld (some ['/', 's', '/', 'a', '/', 'b', '/']) 493).2.inodes :=
  mkdir_p_idempotent_after_success 4096 sampleWorld ['/', 's', '/', 'a', '/', 'b', '/'] 493
    sampleWorld_wellFormed (by decide)

/-! ## The part counter beyond INT_MAX -/

theorem wrapInt32_le (x : Int) : wrapInt32 x ≤ 2147483647 := by
  unfold wrapInt32; omega

/-- The inner loop of copy_part returns from inside only with
ERR_COPY_FILE_PART_COPY. -/
theorem copy_part_loop_status (B : Nat) (fs fd : Int) (total : Int) :
    ∀ (fuel : Nat) (w : World) (pw so dof : Int) (e : ErrorCode),
      (copy_part_loop B fs fd total fuel w pw so dof).1 = some (some e) →
      e = ErrorCode.ERR_COPY_FILE_PART_COPY := by
  intro fuel
  induction fuel with
  | zero => intro w pw so dof e h; unfold copy_part_loop at h; simp at h
  | succ fuel ih =>
    intro w pw so dof e h
    unfold copy_part_loop at h
    split at h
    · dsimp only at h
      split at h
      · simp only [Option.some.injEq] at h; exact h.symm
      · exact ih _ _ _ _ e h
    · simp at h

/-- With num_parts at or above INT_MAX the loop over the parts never reaches its
exit: the `int` counter stays at or below INT_MAX, so `i <= num_parts` holds in
every iteration, and the loop either runs on or returns
ERR_COPY_FILE_PART_COPY. -/
theorem copy_part_parts_beyond_int (B : Nat) (fs fd : Int) (si : file_info) (inner : Nat)
    (hN : 2147483647 ≤ si.num_parts) :
    ∀ (fuel : Nat) (w : World) (i : Int), i ≤ 2147483647 →
      (copy_part_parts B fs fd si inner fuel w i).1 = none ∨
      (copy_part_parts B fs fd si inner fuel w i).1 = some ErrorCode.ERR_COPY_FILE_PART_COPY := by
  intro fuel
  induction fuel with
  | zero => intro w i _; left; rfl
  | succ fuel ih =>
    intro w i hi
    unfold copy_part_parts
    have hle : i ≤ si.num_parts := by omega
    rw [if_pos hle]
    dsimp only
    have hst := copy_part_loop_status B fs fd
      (partLen si.num_parts si.part_size si.last_part_size i) inner w 0
      (partStart si.part_size i) (partStart si.part_size i)
    generalize copy_part_loop B fs fd (partLen si.num_parts si.part_size si.last_part_size i)
      inner w 0 (partStart si.part_size i) (partStart si.part_size i) = r at hst ⊢
    obtain ⟨st, w1⟩ := r
    cases st with
    | none => exact ih w1 _ (wrapInt32_le _)
    | some r =>
      cases r with
      | none => left; rfl
      | some e =>
        right
        simp only at hst ⊢
        rw [hst e rfl]

theorem get_file_info_num_parts (w : World) (p : CStr) (n : Int) :
    (get_file_info w p n).num_parts = n := by
  unfold get_file_info; split <;> rfl

/-- With num_parts at or above INT_MAX `copy` does not return ERR_OK, in any
state and with any fuel. -/
theorem copy_beyond_int (B PM fuel : Nat) (w : World) (src dst : CStr) (num_parts : Int)
    (cli_options : parser_options) (hN : 2147483647 ≤ num_parts) :
    (copy B PM fuel w src dst num_parts cli_options).1 ≠ some ErrorCode.ERR_OK := by
  unfold copy
  dsimp only
  generalize sys_open_rdonly w (get_file_info w src num_parts).file_name = r1
  obtain ⟨fs, w1⟩ := r1
  dsimp only
  generalize sys_open_creat_trunc w1 (get_file_info w dst num_parts).file_name
    (get_file_info w src num_parts).permissions = r2
  obtain ⟨fd, w2⟩ := r2
  dsimp only
  split
  · simp
  · split
    · simp
    · have hn1 : ¬ (num_parts = 1) := by omega
      have hgt : num_parts > 1 := by omega
      rw [if_neg hn1, if_pos hgt]
      have h := copy_part_parts_beyond_int B fs fd (get_file_info w2 src num_parts) fuel
        (by rw [get_file_info_num_parts]; exact hN) fuel w2 1 (by omega)
      unfold copy_part
      generalize copy_part_parts B fs fd (get_file_info w2 src num_parts) fuel fuel w2 1 = r at h ⊢
      obtain ⟨st, w3⟩ := r
      rcases h with h | h
      · simp only at h; subst h; simp
      · simp only at h; subst h; simp

/-- C10, counterexample to the claim as written.  /s/f is an existing regular
file of `sampleWorld` and num_parts = 2147483647 ≥ 1; yet for no amount of fuel
does `copy` of /s/f onto itself return ERR_OK: the `int` counter of `copy_part`
cannot pass num_parts. -/
theorem copy_onto_itself_int_max :
    (pathIno sampleWorld ['/', 's', '/', 'f'] = some 2 ∧
      (sampleWorld.inodes 2).kind = Kind.reg ∧ (1 : Int) ≤ 2147483647) ∧
    ¬ ∃ fuel, (copy 4 4096 fuel sampleWorld ['/', 's', '/', 'f'] ['/', 's', '/', 'f'] 2147483647
        plainOptions).1 = some ErrorCode.ERR_OK := by
  refine ⟨⟨by decide, by decide, by decide⟩, ?_⟩
  rintro ⟨fuel, h⟩
  exact copy_beyond_int 4 4096 fuel sampleWorld ['/', 's', '/', 'f'] ['/', 's', '/', 'f']
    2147483647 plainOptions (by decide) h

/-! ## C7: partial-failure containment in copy_directory -/

/-- One turn of the loop of `copy_directory` in terms of the call the policy of
the specification prescribes for the entry: no call, a call that does not
return, or a call that returns. -/
theorem copy_directory_entries_cons (PM : Nat)
    (recCall : World → CStr → CStr → Option ErrorCode × World)
    (copyCall : World → CStr → CStr → Int → Option ErrorCode × World)
    (src dst : CStr) (opts : parser_options) (d : CStr) (rest : List CStr) (w : World) :
    copy_directory_entries PM recCall copyCall src dst opts (d :: rest) w
      = match specEntryCall PM recCall copyCall src dst opts w d with
        | none => copy_directory_entries PM recCall copyCall src dst opts rest w
        | some (none, w1) => (none, w1)
        | some (some _, w1) => copy_directory_entries PM recCall copyCall src dst opts rest w1 := by
  unfold specEntryCall
  unfold specEntryAction
  rw [copy_directory_entries]
  dsimp only
  by_cases hdot : d = ['.'] ∨ d = ['.', '.']
  · rw [if_pos hdot, if_pos hdot]
  · rw [if_neg hdot, if_neg hdot]
    by_cases hsame : (get_file_info w (joinPath PM src d) opts.num_parts).status = 0 ∧
        (get_file_info w (joinPath PM dst d) opts.num_parts).status = 0 ∧
        (get_file_info w (joinPath PM src d) opts.num_parts).st_ino
          = (get_file_info w (joinPath PM dst d) opts.num_parts).st_ino ∧
        (get_file_info w (joinPath PM src d) opts.num_parts).st_dev
          = (get_file_info w (joinPath PM dst d) opts.num_parts).st_dev
    · have hsame' : (get_file_info w (joinPath PM src d) opts.num_parts).status = 0 ∧
          (get_file_info w (joinPath PM dst d) opts.num_parts).status = 0 ∧
          (get_file_info w (joinPath PM src d) opts.num_parts).st_dev
            = (get_file_info w (joinPath PM dst d) opts.num_parts).st_dev ∧
          (get_file_info w (joinPath PM src d) opts.num_parts).st_ino
            = (get_file_info w (joinPath PM dst d) opts.num_parts).st_ino :=
        ⟨hsame.1, hsame.2.1, hsame.2.2.2, hsame.2.2.1⟩
      rw [if_pos hsame, if_pos hsame']
    · have hsame' : ¬ ((get_file_info w (joinPath PM src d) opts.num_parts).status = 0 ∧
          (get_file_info w (joinPath PM dst d) opts.num_parts).status = 0 ∧
          (get_file_info w (joinPath PM src d) opts.num_parts).st_dev
            = (get_file_info w (joinPath PM dst d) opts.num_parts).st_dev ∧
          (get_file_info w (joinPath PM src d) opts.num_parts).st_ino
            = (get_file_info w (joinPath PM dst d) opts.num_parts).st_ino) :=
        fun h => hsame ⟨h.1, h.2.1, h.2.2.2, h.2.2.1⟩
      rw [if_neg hsame, if_neg hsame']
      by_cases hstat : (get_file_info w (joinPath PM src d) 1).status = -1
      · rw [if_pos hstat, if_pos hstat]
      · rw [if_neg hstat, if_neg hstat]
        by_cases hd : S_ISDIR (get_file_info w (joinPath PM src d) 1).st_mode
        · rw [if_pos hd, if_pos hd]
          dsimp only
          generalize recCall (logCall w (Call.copy_directory (joinPath PM src d)
            (joinPath PM dst d))) (joinPath PM src d) (joinPath PM dst d) = r
          obtain ⟨st, w1⟩ := r
          cases st <;> rfl
        · rw [if_neg hd, if_neg hd]
          by_cases hr : S_ISREG (get_file_info w (joinPath PM src d) 1).st_mode
          · rw [if_pos hr, if_pos hr]
            dsimp only
            generalize copyCall (logCall w (Call.copy (joinPath PM src d) (joinPath PM dst d)
              opts.num_parts)) (joinPath PM src d) (joinPath PM dst d) opts.num_parts = r
            obtain ⟨st, w1⟩ := r
            cases st <;> rfl
          · rw [if_neg hr, if_neg hr]

/-- One turn of the loop of `copy_directory` against the policy of the
specification: when the call made for the entry returns, the loop goes on with
the remaining entries from the state the policy prescribes. -/
theorem copy_directory_entries_step (PM : Nat)
    (recCall : World → CStr → CStr → Option ErrorCode × World)
    (copyCall : World → CStr → CStr → Int → Option ErrorCode × World)
    (src dst : CStr) (opts : parser_options) (d : CStr) (rest : List CStr) (w : World)
    (hret : ∀ r, specEntryCall PM recCall copyCall src dst opts w d = some r → r.1 ≠ none) :
    copy_directory_entries PM recCall copyCall src dst opts (d :: rest) w
      = copy_directory_entries PM recCall copyCall src dst opts rest
          (specEntryStep PM recCall copyCall src dst opts w d) := by
  rw [copy_directory_entries_cons]
  unfold specEntryStep
  generalize specEntryCall PM recCall copyCall src dst opts w d = c at hret ⊢
  cases c with
  | none => rfl
  | some r =>
    obtain ⟨st, w1⟩ := r
    cases st with
    | none => exact absurd rfl (hret _ rfl)
    | some e => rfl

/-- The loop of `copy_directory` does not return when one of the calls made on
the way does not return: the condition `entryCallsReturn` is necessary for the
loop to return at all. -/
theorem copy_directory_entries_stuck (PM : Nat)
    (recCall : World → CStr → CStr → Option ErrorCode × World)
    (copyCall : World → CStr → CStr → Int → Option ErrorCode × World)
    (src dst : CStr) (opts : parser_options) :
    ∀ (entries : List CStr) (w : World),
      ¬ entryCallsReturn PM recCall copyCall src dst opts entries w →
      (copy_directory_entries PM recCall copyCall src dst opts entries w).1 = none := by
  intro entries
  induction entries with
  | nil => intro w h; exact absurd trivial h
  | cons d rest ih =>
    intro w h
    unfold entryCallsReturn at h
    by_cases h1 : ∀ r, specEntryCall PM recCall copyCall src dst opts w d = some r → r.1 ≠ none
    · rw [copy_directory_entries_step PM recCall copyCall src dst opts d rest w h1]
      exact ih _ (fun h2 => h ⟨h1, h2⟩)
    · rw [copy_directory_entries_cons]
      generalize specEntryCall PM recCall copyCall src dst opts w d = c at h1 ⊢
      cases c with
      | none => exact absurd (fun _ hc => by cases hc) h1
      | some r =>
        obtain ⟨st, w1⟩ := r
        cases st with
        | none => rfl
        | some e =>
          refine absurd (fun r hc => ?_) h1
          cases hc
          simp

/-- The loop of `copy_directory` refines the walk of the specification: when
every call made on the way returns, the loop returns ERR_OK in the state the
walk prescribes. -/
theorem copy_directory_entries_refines (PM : Nat)
    (recCall : World → CStr → CStr → Option ErrorCode × World)
    (copyCall : World → CStr → CStr → Int → Option ErrorCode × World)
    (src dst : CStr) (opts : parser_options) :
    ∀ (entries : List CStr) (w : World),
      entryCallsReturn PM recCall copyCall src dst opts entries w →
      copy_directory_entries PM recCall copyCall src dst opts entries w
        = (some ErrorCode.ERR_OK, specWalk PM recCall copyCall src dst opts entries w) := by
  intro entries
  induction entries with
  | nil => intro w _; rfl
  | cons d rest ih =>
    intro w h
    unfold entryCallsReturn at h
    rw [copy_directory_entries_step PM recCall copyCall src dst opts d rest w h.1, ih _ h.2]
    rfl

end Cppp
